import Mathlib

/-!
Formal model of the SimplicityPress core build pipeline.

The Python sources under `src/simplicitypress/core/` are embedded shallowly:
Python strings become `List Char`, dictionaries become association lists,
`datetime` values become integer timestamps, floating point numbers become
rationals (with `math.log` and `math.sqrt` abstracted as function
parameters), and fallible code returns `Except`.  Each definition is a
direct translation of the corresponding Python function; the theorems at
the end of the file settle the specification claims about those functions.
-/

/-- Python strings are modelled as lists of characters. -/
abbrev PyStr := List Char

/-- Coerce a Lean string literal into the `PyStr` model. -/
def pystr (s : String) : PyStr := s.data

/-- Python `str.isspace` on the ASCII whitespace characters recognised by
`str.strip()` (space, tab, newline, carriage return, vertical tab, form feed). -/
def isPyWs (c : Char) : Bool :=
  c = ' ' || c = '\t' || c = '\n' || c = '\r' || c = '\x0b' || c = '\x0c'

/-- Python `str.strip()`: remove leading and trailing whitespace. -/
def pyStrip (s : PyStr) : PyStr :=
  ((s.dropWhile isPyWs).reverse.dropWhile isPyWs).reverse

/-- Python `str.lstrip("/")`. -/
def lstripSlash (s : PyStr) : PyStr :=
  s.dropWhile (fun c => c = '/')

/-- Characters that terminate a line for Python `str.splitlines` (besides the
two-character sequence `\r\n`, which is handled separately). -/
def isLineBreak (c : Char) : Bool :=
  c = '\n' || c = '\r' || c = '\x0b' || c = '\x0c' ||
  c = '\x1c' || c = '\x1d' || c = '\x1e' || c = '\x85' ||
  c = ' ' || c = ' '

/-- Python `str.splitlines(keepends=True)`: cut the text after every line
break, keeping the break characters; a `\r\n` pair counts as one break. -/
def splitlinesKE (s : List Char) : List (List Char) :=
  if s = [] then []
  else
    let i := s.findIdx isLineBreak
    if h : i < s.length then
      if s.get ⟨i, h⟩ = '\r' ∧ (s.drop (i + 1)).head? = some '\n' then
        s.take (i + 2) :: splitlinesKE (s.drop (i + 2))
      else
        s.take (i + 1) :: splitlinesKE (s.drop (i + 1))
    else [s]
termination_by s.length
decreasing_by
  · simp only [List.length_drop]
    omega
  · simp only [List.length_drop]
    omega

/-- Concatenate a list of lines back into a single string. -/
def joinl (lines : List PyStr) : PyStr := lines.flatten

/-! ### TOML values and Python `int()` conversion -/

/-- Values appearing in parsed TOML front matter / configuration tables. -/
inductive TomlVal where
  | vStr (s : PyStr)
  | vInt (n : ℤ)
  | vBool (b : Bool)
  | vFloat (q : ℚ)
  | vArr (elems : List TomlVal)

/-- A parsed TOML table: an association list from keys to values
(Python `dict`, preserving insertion order). -/
abbrev TomlTable := List (String × TomlVal)

/-- Look a key up in a table (Python `dict.get`). -/
def lookupT (t : TomlTable) (k : String) : Option TomlVal :=
  (t.find? (fun p => p.1 == k)).map (fun p => p.2)

/-- Truncate a rational toward zero, as Python `int(float)` does. -/
def truncQ (q : ℚ) : ℤ :=
  if 0 ≤ q then ⌊q⌋ else -⌊-q⌋

/-- Parse the digits of a decimal integer literal. -/
def digitsToNat : List Char → Option ℕ
  | [] => none
  | cs =>
    if cs.all (fun c => c.isDigit) then
      some (cs.foldl (fun acc c => acc * 10 + (c.toNat - 48)) 0)
    else none

/-- Python `int(str)`: optional surrounding whitespace, optional sign,
then decimal digits; anything else raises `ValueError`. -/
def parseIntStr (s : PyStr) : Except PyStr ℤ :=
  let t := pyStrip s
  let (sign, digits) :=
    match t with
    | '+' :: rest => ((1 : ℤ), rest)
    | '-' :: rest => ((-1 : ℤ), rest)
    | _ => ((1 : ℤ), t)
  match digitsToNat digits with
  | some n => .ok (sign * n)
  | none => .error (pystr ("ValueError: invalid literal for int()"))

/-- Python `int(x)` on a TOML value: ints pass through, booleans become
0/1, floats truncate toward zero, strings must be decimal literals, and
lists raise `TypeError`. -/
def pyInt : TomlVal → Except PyStr ℤ
  | .vInt n => .ok n
  | .vBool b => .ok (if b then 1 else 0)
  | .vFloat q => .ok (truncQ q)
  | .vStr s => parseIntStr s
  | .vArr _ => .error (pystr ("TypeError: int() argument must not be a list"))

/-- Python truthiness of a TOML value (`bool(x)`). -/
def pyTruthy : TomlVal → Bool
  | .vStr s => !s.isEmpty
  | .vInt n => n != 0
  | .vBool b => b
  | .vFloat q => q != 0
  | .vArr elems => !elems.isEmpty

/-! ### Front-matter parser (`core/frontmatter.py`) -/

/-- The three-character front-matter fence. -/
def fenceStr : PyStr := pystr ("+++")

/-- Scan `lines` for the first line whose stripped text is the fence;
return the lines before it and the lines after it
(the scan over `range(1, len(lines))` in `parse_front_matter_and_body`). -/
def splitAtFence : List PyStr → Option (List PyStr × List PyStr)
  | [] => none
  | l :: ls =>
    if pyStrip l = fenceStr then some ([], ls)
    else
      match splitAtFence ls with
      | none => none
      | some (fm, rest) => some (l :: fm, rest)

/-- `parse_front_matter_and_body` from `core/frontmatter.py`.

The file's text (already read) is split into kept-ends lines.  If the first
line is not the `+++` fence, or no closing fence exists, the whole text is
returned as the body with empty metadata.  Otherwise the text between the
fences goes through the TOML parser (abstracted as the `tomlParse`
parameter, standing for `tomllib.loads`); a parse failure becomes an error
message naming the source file, and on success at most one blank line
directly after the closing fence is dropped from the body. -/
def parseFrontMatterAndBody (tomlParse : PyStr → Except PyStr TomlTable)
    (path : PyStr) (text : PyStr) : Except PyStr (TomlTable × PyStr) :=
  match splitlinesKE text with
  | [] => .ok ([], [])
  | line0 :: rest =>
    if pyStrip line0 ≠ fenceStr then .ok ([], text)
    else
      match splitAtFence rest with
      | none => .ok ([], text)
      | some (fmLines, afterLines) =>
        match tomlParse (joinl fmLines) with
        | .error e =>
          .error (pystr ("Failed to parse TOML front matter in ") ++ path ++
            pystr (": ") ++ e)
        | .ok meta =>
          let bodyLines :=
            match afterLines with
            | [] => ([] : List PyStr)
            | b :: bs => if pyStrip b = [] then bs else b :: bs
          .ok (meta, joinl bodyLines)

/-! ### Ordering helpers (Python string and tuple comparison) -/

/-- Python string `<`: lexicographic comparison by code point. -/
def lexLt : List Char → List Char → Bool
  | [], [] => false
  | [], _ :: _ => true
  | _ :: _, [] => false
  | a :: as, b :: bs => if a < b then true else if b < a then false else lexLt as bs

/-- Python string `<=`: lexicographic comparison by code point. -/
def lexLe (a b : List Char) : Bool := !lexLt b a

/-- Decimal representation of a natural number. -/
def natRepr (n : ℕ) : PyStr := (Nat.repr n).data

/-! ### Data model (`core/models.py`) -/

/-- `models.SitePaths`: resolved directories of a site. -/
structure SitePaths where
  siteRoot : PyStr
  contentDir : PyStr
  postsDir : PyStr
  pagesDir : PyStr
  templatesDir : PyStr
  staticDir : PyStr
  outputDir : PyStr

/-- `models.Config`: the top-level configuration dataclass.  Its declared
fields are exactly `site`, `build`, `author`, `paths` — there are no
`search`, `sitemap` or `feeds` fields. -/
structure Config where
  site : TomlTable
  build : TomlTable
  author : TomlTable
  paths : SitePaths

/-- `models.Post` (dates are modelled as integer timestamps). -/
structure Post where
  title : PyStr
  date : ℤ
  slug : PyStr
  tags : List PyStr
  draft : Bool
  summary : PyStr
  coverImage : Option PyStr
  coverAlt : Option PyStr
  contentHtml : PyStr
  sourcePath : PyStr
  url : PyStr
  deriving DecidableEq

/-- `models.Page`: the page dataclass declares exactly the five fields
`title`, `slug`, `content_html`, `source_path`, `url`.  It has no `date`,
`show_in_nav`, `nav_title` or `nav_order` field. -/
structure Page where
  title : PyStr
  slug : PyStr
  contentHtml : PyStr
  sourcePath : PyStr
  url : PyStr
  deriving DecidableEq

/-- Field names declared by the `models.Page` dataclass. -/
def pageFieldNames : List String :=
  ["title", "slug", "content_html", "source_path", "url"]

/-- Keyword arguments that `discover_content` passes to `Page(...)`
(`core/content.py`, lines 117-128). -/
def pageCtorKwargs : List String :=
  ["title", "slug", "content_html", "source_path", "url",
   "date", "show_in_nav", "nav_title", "nav_order"]

/-- Reading `page.date` on a `models.Page` instance: the dataclass declares
no `date` field, so Python raises `AttributeError`.  The `Option ℤ` result
type mirrors the `datetime | None` value the callers in `core/feeds.py`
expect. -/
def pageDateAttr (_ : Page) : Except PyStr (Option ℤ) :=
  .error (pystr ("AttributeError: Page object has no attribute date"))

/-- Reading `config.sitemap` (`core/build.py`, line 112): `models.Config`
declares no `sitemap` field, so Python raises `AttributeError`. -/
def configAttrSitemap (_ : Config) : Except PyStr TomlTable :=
  .error (pystr ("AttributeError: Config object has no attribute sitemap"))

/-! ### Content discovery, page branch (`core/content.py`, lines 87-129) -/

/-- Python `str(x)` on a TOML value.  Strings, integers and booleans follow
Python exactly; the float and array representations are schematic (they
never feed into the claims below). -/
def pyStrOf : TomlVal → PyStr
  | .vStr s => s
  | .vInt n => (Int.repr n).data
  | .vBool b => if b then pystr ("True") else pystr ("False")
  | .vFloat _ => pystr ("<float>")
  | .vArr _ => pystr ("[...]")

/-- The `nav_order` computation in `discover_content`: take the raw value
(default 1000), convert with `int(...)`, and fall back to 1000 on
`TypeError`/`ValueError`. -/
def navOrderOf (meta : TomlTable) : ℤ :=
  match pyInt ((lookupT meta "nav_order").getD (.vInt 1000)) with
  | .ok n => n
  | .error _ => 1000

/-- The page branch of `discover_content` for a single page file whose front
matter has already been parsed into `meta`.  `parseDate` abstracts
`datetime.fromisoformat`.  The computed values are assembled into a
`Page(...)` call carrying the keyword arguments of `core/content.py`; as
`models.Page` declares only five of those nine fields, the constructor call
raises `TypeError`. -/
def discoverPage (parseDate : PyStr → Except PyStr ℤ) (meta : TomlTable)
    (stem : PyStr) (path : PyStr) (bodyHtml : PyStr) : Except PyStr Page := do
  -- title = metadata.get("title"); if not title: raise
  let title ←
    match lookupT meta "title" with
    | some v => if pyTruthy v then Except.ok v else
        .error (pystr ("Missing required title in page front matter: ") ++ path)
    | none => .error (pystr ("Missing required title in page front matter: ") ++ path)
  -- slug = metadata.get("slug") or path.stem
  let slug :=
    match lookupT meta "slug" with
    | some v => if pyTruthy v then pyStrOf v else stem
    | none => stem
  let url := pystr ("/") ++ slug ++ pystr ("/")
  -- show_in_nav, nav_title, nav_order (all computed before the Page call)
  let _showInNav := pyTruthy ((lookupT meta "show_in_nav").getD (.vBool false))
  let _navTitle := (lookupT meta "nav_title").map pyStrOf
  let _navOrder := navOrderOf meta
  -- date: parsed only when present and truthy; invalid format raises
  let _pageDate ←
    match lookupT meta "date" with
    | some v =>
      if pyTruthy v then
        match parseDate (pyStrOf v) with
        | .ok d => Except.ok (some d)
        | .error _ =>
          .error (pystr ("Invalid date value in page front matter for ") ++ path)
      else Except.ok (none : Option ℤ)
    | none => Except.ok (none : Option ℤ)
  -- Page(title=..., slug=..., content_html=..., source_path=..., url=...,
  --      date=..., show_in_nav=..., nav_title=..., nav_order=...)
  match pageCtorKwargs.find? (fun k => !(pageFieldNames.contains k)) with
  | some k =>
    .error (pystr ("TypeError: Page.__init__() got an unexpected keyword argument ") ++ k.data)
  | none =>
    .ok { title := pyStrOf title, slug := slug, contentHtml := bodyHtml,
          sourcePath := path, url := url }

/-! ### Build orchestrator (`core/build.py`) -/

/-- `_slugify_tag`: strip, lowercase, spaces to hyphens, then drop every
character outside `[a-z0-9_-]`. -/
def slugifyTag (tag : PyStr) : PyStr :=
  let t := (pyStrip tag).map Char.toLower
  let t := t.map (fun c => if c = ' ' then '-' else c)
  t.filter (fun c => ('a' ≤ c && c ≤ 'z') || c.isDigit || c = '_' || c = '-')

/-- `dict.setdefault(tag, []).append(post)` on an insertion-ordered
association list. -/
def tagIndexAdd (acc : List (PyStr × List Post)) (tag : PyStr) (post : Post) :
    List (PyStr × List Post) :=
  match acc with
  | [] => [(tag, [post])]
  | (k, v) :: rest =>
    if k = tag then (k, v ++ [post]) :: rest
    else (k, v) :: tagIndexAdd rest tag post

/-- `_build_tag_index`: iterate posts in order, and each post's tags in
their original order, appending to per-tag lists. -/
def buildTagIndex (posts : List Post) : List (PyStr × List Post) :=
  posts.foldl (fun acc post => post.tags.foldl (fun a tag => tagIndexAdd a tag post) acc) []

/-- `ceil(n / p)` for a positive page size. -/
def ceilDiv (n p : ℕ) : ℕ := (n + p - 1) / p

/-- `total_pages = max(1, ceil(len(posts) / posts_per_page))`
(`core/build.py`, line 108). -/
def totalPagesOf (n p : ℕ) : ℕ := max 1 (ceilDiv n p)

/-- `posts_per_page = int(config.build.get("posts_per_page", 10)) or 10`
(`core/build.py`, line 107): `int(...)` may raise; a result of `0` is falsy,
so `or` substitutes the default 10. -/
def resolvePostsPerPage (build : TomlTable) : Except PyStr ℤ :=
  match pyInt ((lookupT build "posts_per_page").getD (.vInt 10)) with
  | .error e => .error e
  | .ok v => .ok (if v = 0 then 10 else v)

/-- One rendered pagination page of the home index
(`core/build.py`, lines 183-213). -/
structure PageSlice where
  number : ℕ
  url : PyStr
  posts : List Post
  prevUrl : Option PyStr
  nextUrl : Option PyStr

/-- The pagination loop of `build_site` (`core/build.py`, lines 183-213):
page `k` holds `posts[(k-1)*p : k*p]`; page 1 is the root index and has no
`prev_url`; page 2's `prev_url` is the root `/`; the last page has no
`next_url`. -/
def paginate (posts : List Post) (p : ℕ) : List PageSlice :=
  let tp := totalPagesOf posts.length p
  (List.range' 1 tp).map (fun k =>
    { number := k
      url := if k = 1 then pystr ("/") else pystr ("/page/") ++ natRepr k ++ pystr ("/")
      posts := (posts.drop ((k - 1) * p)).take p
      prevUrl :=
        if 1 < k then
          some (if k = 2 then pystr ("/") else pystr ("/page/") ++ natRepr (k - 1) ++ pystr ("/"))
        else none
      nextUrl := if k < tp then some (pystr ("/page/") ++ natRepr (k + 1) ++ pystr ("/")) else none })

/-- Case-insensitive sort key of the tag listing:
`sorted(tag_index.items(), key=lambda kv: kv[0].lower())`. -/
def tagSortLe (a b : PyStr × List Post) : Bool :=
  lexLe (a.1.map Char.toLower) (b.1.map Char.toLower)

/-- The tag-detail rendering loop (`core/build.py`, lines 243-284), reduced
to the files it writes: one write per tag name, in case-insensitive name
order, at `tags/<slug>/index.html`, carrying that name's post list. -/
def tagPageWrites (tagIndex : List (PyStr × List Post)) : List (PyStr × List Post) :=
  (tagIndex.mergeSort tagSortLe).map
    (fun kv => (pystr ("tags/") ++ slugifyTag kv.1 ++ pystr ("/index.html"), kv.2))

/-- Final content of a path after a sequence of writes: the last write to
that path wins (later renders overwrite earlier ones). -/
def lastWrite (writes : List (PyStr × List Post)) (path : PyStr) : Option (List Post) :=
  (writes.reverse.find? (fun w => w.1 == path)).map (fun w => w.2)

/-- Output path of the tag-detail page for a slug. -/
def tagDetailPath (slug : PyStr) : PyStr :=
  pystr ("tags/") ++ slug ++ pystr ("/index.html")

/-- `build_site` (`core/build.py`, lines 65-317), as far as any execution
gets.  Content discovery is abstracted into the `posts`/`pages` arguments.
Lines 95-108 (draft filter, date sort, tag index, pagination arithmetic)
are translated directly; line 112 then reads `config.sitemap`, an attribute
`models.Config` does not declare, so every call fails there.  Lines 113-317
(all template rendering, the legacy feed, search assets, the static copy,
the sitemap) are unreachable — no execution passes the bind below — and are
therefore not modelled further; notably, none of those lines mention the
feeds configuration or call `generate_feeds`. -/
def buildSite (config : Config) (posts : List Post) (_pages : List Page) :
    Except PyStr Unit := do
  let includeDrafts := pyTruthy ((lookupT config.build "include_drafts").getD (.vBool false))
  let posts1 := if includeDrafts then posts else posts.filter (fun p => !p.draft)
  let posts2 := posts1.mergeSort (fun a b => decide (b.date ≤ a.date))
  let _tagIndex := buildTagIndex posts2
  let ppp ← resolvePostsPerPage config.build
  let _totalPages := totalPagesOf posts2.length ppp.toNat
  let _sitemapCfg ← configAttrSitemap config
  pure ()

/-! ### Feed generator (`core/feeds.py`) -/

/-- `FeedSettings`: normalized feed configuration
(`include_tags` is a Python set; only membership is ever used). -/
structure FeedSettings where
  rssOutput : Option PyStr
  atomOutput : Option PyStr
  rssHref : Option PyStr
  atomHref : Option PyStr
  maxItems : ℤ
  includePosts : Bool
  includePages : Bool
  includeDrafts : Bool
  includeTags : List PyStr
  summaryMode : PyStr
  summaryMaxChars : ℤ
  siteUrl : PyStr

/-- `FeedEntry`: one feed item ready for serialization. -/
structure FeedEntry where
  title : PyStr
  url : PyStr
  guid : PyStr
  summary : Option PyStr
  published : ℤ
  updated : Option ℤ
  deriving DecidableEq

/-- Remove `<...>` tag groups, as `re.sub(r"<[^>]+>", "", value)` does: a
match starts at `<`, spans at least one non-`>` character, and ends at the
first `>`. -/
def stripTagGroups (s : List Char) : List Char :=
  match s with
  | [] => []
  | c :: rest =>
    if c = '<' then
      let j := rest.findIdx (fun d => d = '>')
      if h : j < rest.length then
        if 1 ≤ j then stripTagGroups (rest.drop (j + 1))
        else c :: stripTagGroups rest
      else c :: stripTagGroups rest
    else c :: stripTagGroups rest
termination_by s.length
decreasing_by
  · simp only [List.length_drop, List.length_cons]
    omega
  · simp
  · simp
  · simp

/-- Collapse whitespace runs into single spaces
(`re.sub(r"\s+", " ", text)`). -/
def collapseWs (s : List Char) : List Char :=
  match s with
  | [] => []
  | c :: rest =>
    if isPyWs c then ' ' :: collapseWs (rest.dropWhile isPyWs)
    else c :: collapseWs rest
termination_by s.length
decreasing_by
  · have hd := (List.dropWhile_sublist (l := rest) (p := isPyWs)).length_le
    simp only [List.length_cons]
    omega
  · simp

/-- `_strip_html`: drop markup tags, unescape entities (`html.unescape`,
abstracted as the `unescape` parameter), and collapse whitespace into
single spaces, stripping the ends. -/
def stripHtml (unescape : PyStr → PyStr) (value : PyStr) : PyStr :=
  pyStrip (collapseWs (unescape (stripTagGroups value)))

/-- Python `str.rstrip()`. -/
def pyRstrip (s : PyStr) : PyStr :=
  (s.reverse.dropWhile isPyWs).reverse

/-- `_truncate`: keep strings within `max_chars`, appending `...` after
dropping to `max(0, max_chars - 3)` characters and right-stripping. -/
def truncatePy (value : PyStr) (maxChars : ℤ) : PyStr :=
  if (value.length : ℤ) ≤ maxChars then value
  else pyRstrip (value.take (maxChars - 3).toNat) ++ pystr ("...")

/-- `_post_summary`: an excerpt summary uses the front-matter summary; a
text summary strips the rendered HTML, falling back to the front-matter
summary when the result is empty.  An empty summary maps to `None`. -/
def postSummary (unescape : PyStr → PyStr) (post : Post) (summaryMode : PyStr)
    (maxChars : ℤ) : Option PyStr :=
  let summary :=
    if summaryMode = pystr ("excerpt") then pyStrip post.summary
    else
      let t := stripHtml unescape post.contentHtml
      if t = [] then post.summary else t
  if summary = [] then none
  else some (truncatePy (pyStrip summary) maxChars)

/-- `_page_summary`: a page summary strips the page's rendered HTML, or is
`None` for an empty body. -/
def pageSummary (unescape : PyStr → PyStr) (page : Page) (maxChars : ℤ) :
    Option PyStr :=
  if page.contentHtml = [] then none
  else some (truncatePy (stripHtml unescape page.contentHtml) maxChars)

/-- The posts loop of `_collect_entries`: skip excluded drafts, apply the
tag allow-list, and build one entry per surviving post. -/
def collectPostEntries (unescape : PyStr → PyStr) (settings : FeedSettings)
    (posts : List Post) : List FeedEntry :=
  posts.filterMap (fun post =>
    if post.draft && !settings.includeDrafts then none
    else if !settings.includeTags.isEmpty &&
        !(post.tags.any (fun t => settings.includeTags.contains t)) then none
    else
      let absUrl := settings.siteUrl ++ post.url
      some { title := post.title, url := absUrl, guid := absUrl,
             summary := postSummary unescape post settings.summaryMode settings.summaryMaxChars,
             published := post.date, updated := some post.date })

/-- The pages loop of `_collect_entries`: each iteration first reads
`page.date` (which raises `AttributeError` on `models.Page`); a `None` date
would skip the page, any other date yields an entry. -/
def collectPageEntries (unescape : PyStr → PyStr) (settings : FeedSettings) :
    List Page → Except PyStr (List FeedEntry)
  | [] => .ok []
  | page :: rest => do
    let d ← pageDateAttr page
    match d with
    | none => collectPageEntries unescape settings rest
    | some dt =>
      let absUrl := settings.siteUrl ++ page.url
      let entries ← collectPageEntries unescape settings rest
      .ok ({ title := page.title, url := absUrl, guid := absUrl,
             summary := pageSummary unescape page settings.summaryMaxChars,
             published := dt, updated := some dt } :: entries)

/-- The sort of `_collect_entries`:
`entries.sort(key=lambda e: (e.published, e.url), reverse=True)` — sort
entries descending by `(published, url)`. -/
def feedSortLe (a b : FeedEntry) : Bool :=
  if a.published = b.published then lexLe b.url a.url
  else decide (b.published < a.published)

/-- `_collect_entries` (`core/feeds.py`, lines 221-275): gather post
entries, then page entries, sort descending by `(published, url)` and
truncate to `max_items`. -/
def collectEntries (unescape : PyStr → PyStr) (settings : FeedSettings)
    (posts : List Post) (pages : List Page) : Except PyStr (List FeedEntry) := do
  let postEntries := if settings.includePosts then collectPostEntries unescape settings posts else []
  let pageEntries ← if settings.includePages then collectPageEntries unescape settings pages else pure []
  let entries := postEntries ++ pageEntries
  let sorted := entries.mergeSort feedSortLe
  pure (sorted.take settings.maxItems.toNat)

/-! ### Search index builder (`core/search_index.py`) -/

/-- `SearchSettings` (floats as rationals).  `dropDfFrac` models the
`drop_df_ratio` field. -/
structure SearchSettings where
  maxTermsPerDoc : ℕ
  minTokenLen : ℕ
  dropDfFrac : ℚ
  dropDfMin : ℤ
  weightBody : ℚ
  weightTitle : ℚ
  weightTags : ℚ
  normalizeByDocLen : Bool

/-- `should_drop_token` (`core/search_index.py`, lines 492-504), translated
guard for guard: a non-positive document frequency is dropped only when
`drop_df_min` is positive; a non-positive corpus is always dropped; then
`df <= drop_df_min`, `df == doc_count`, and `df / doc_count >=
drop_df_ratio` each force a drop. -/
def shouldDropToken (df docCount : ℤ) (s : SearchSettings) : Bool :=
  if df ≤ 0 then decide (0 < s.dropDfMin)
  else if docCount ≤ 0 then true
  else if df ≤ s.dropDfMin then true
  else if df = docCount then true
  else decide (s.dropDfFrac ≤ (df : ℚ) / (docCount : ℚ))

/-- `DocumentRecord`: transient per-document token weights. -/
structure DocumentRecord where
  docId : ℕ
  tokenWeights : List (PyStr × ℚ)
  bodyTokenCount : ℕ

/-- Ascending order on the Python sort key `(-score, token)` used by
`_score_document_tokens` and `_build_terms_index`. -/
def scoredKeyLe (a b : PyStr × ℚ) : Bool :=
  if a.2 = b.2 then lexLe a.1 b.1 else decide (b.2 < a.2)

/-- The tf-idf score of one `(document, token)` pair, as the specification
words it: `(1 + ln(weight)) * (ln((doc_count+1)/(df+1)) + 1)`, divided by
`sqrt(body_token_count)` when length normalization is enabled and the
document has at least one body token. -/
def scoreFormula (log sqrt : ℚ → ℚ) (w : ℚ) (df : ℤ) (docCount bodyTokenCount : ℕ)
    (s : SearchSettings) : ℚ :=
  let base := (1 + log w) * (log (((docCount : ℚ) + 1) / ((df : ℚ) + 1)) + 1)
  if s.normalizeByDocLen && decide (0 < bodyTokenCount) then
    base / sqrt (bodyTokenCount : ℚ)
  else base

/-- The accumulation loop of `_score_document_tokens` (lines 472-484):
tokens with non-positive weight or dropped by `should_drop_token` are
skipped; every other token scores `tf * idf`. -/
def survivingScores (log sqrt : ℚ → ℚ) (tokenWeights : List (PyStr × ℚ))
    (dfOf : PyStr → ℤ) (docCount : ℕ) (bodyTokenCount : ℕ)
    (s : SearchSettings) : List (PyStr × ℚ) :=
  tokenWeights.filterMap (fun tw =>
    if tw.2 ≤ 0 then none
    else if shouldDropToken (dfOf tw.1) (docCount : ℤ) s then none
    else some (tw.1, scoreFormula log sqrt tw.2 (dfOf tw.1) docCount bodyTokenCount s))

/-- `_score_document_tokens` (`core/search_index.py`, lines 464-489).
`log` and `sqrt` abstract `math.log` and `math.sqrt`.  The surviving scored
pairs are sorted by `(-score, token)` and truncated to `max_terms` entries
when longer. -/
def scoreDocumentTokens (log sqrt : ℚ → ℚ) (tokenWeights : List (PyStr × ℚ))
    (dfOf : PyStr → ℤ) (docCount : ℕ) (maxTerms : ℕ) (bodyTokenCount : ℕ)
    (s : SearchSettings) : List (PyStr × ℚ) :=
  let scored := survivingScores log sqrt tokenWeights dfOf docCount bodyTokenCount s
  let sortedScored := scored.mergeSort scoredKeyLe
  if maxTerms < scored.length then sortedScored.take maxTerms else sortedScored

/-- The document frequency of a token: the number of records whose
token-weight dictionary lists it as a key (`df_counter`). -/
def dfCount (records : List DocumentRecord) (token : PyStr) : ℕ :=
  (records.filter (fun r => (r.tokenWeights.map Prod.fst).contains token)).length

/-- Round half to even (Python `round`). -/
def roundHalfEven (x : ℚ) : ℤ :=
  let f := ⌊x⌋
  if x - f < 1 / 2 then f
  else if (1 : ℚ) / 2 < x - f then f + 1
  else if f % 2 = 0 then f else f + 1

/-- `round(score, 6)` on the exact rational model. -/
def round6 (q : ℚ) : ℚ := (roundHalfEven (q * 1000000) : ℚ) / 1000000

/-- Ascending order on the posting sort key `(-score, doc_id)`. -/
def postingLe (a b : ℕ × ℚ) : Bool :=
  if a.2 = b.2 then decide (a.1 ≤ b.1) else decide (b.2 < a.2)

/-- All `(token, (doc_id, score))` pairs produced by scoring each record
(the nested loops of `_build_terms_index`, lines 443-453). -/
def termPairs (log sqrt : ℚ → ℚ) (records : List DocumentRecord)
    (s : SearchSettings) : List (PyStr × (ℕ × ℚ)) :=
  records.flatMap (fun r =>
    (scoreDocumentTokens log sqrt r.tokenWeights
        (fun t => (dfCount records t : ℤ)) records.length s.maxTermsPerDoc
        r.bodyTokenCount s).map (fun ts => (ts.1, (r.docId, ts.2))))

/-- `_build_terms_index` (`core/search_index.py`, lines 433-461): an empty
corpus yields an empty index; otherwise group the scored pairs by token,
emit tokens in sorted order, each with its postings sorted by
`(-score, doc_id)` and scores rounded to six decimals. -/
def buildTermsIndex (log sqrt : ℚ → ℚ) (records : List DocumentRecord)
    (s : SearchSettings) : List (PyStr × List (ℕ × ℚ)) :=
  if records.isEmpty then []
  else
    let pairs := termPairs log sqrt records s
    let tokens := (pairs.map Prod.fst).dedup.mergeSort lexLe
    tokens.map (fun t =>
      (t, (((pairs.filter (fun pr => pr.1 == t)).map Prod.snd).mergeSort postingLe).map
        (fun post => (post.1, round6 post.2))))

/-! ### Sitemap generator (`core/sitemap.py`) -/

/-- `SitemapEntry`: a path plus an optional last-modified timestamp (only
the presence of the timestamp matters to the claims below). -/
structure SitemapEntry where
  path : PyStr
  lastmod : Option ℤ
  deriving DecidableEq

/-- Python `str.rstrip("/")`. -/
def rstripSlash (s : PyStr) : PyStr :=
  (s.reverse.dropWhile (fun c => c = '/')).reverse

/-- `_normalize_site_url`: strip, reject empty, drop trailing slashes,
reject a bare scheme-root. -/
def normalizeSiteUrl (raw : PyStr) : Except PyStr PyStr :=
  let text := pyStrip raw
  if text = [] then .error (pystr ("site_url is required for sitemap generation"))
  else
    let normalized := rstripSlash text
    if normalized = [] then .error (pystr ("site_url must not be the root path"))
    else .ok normalized

/-- One pass of `normalized.replace("//", "/")`: replace every
non-overlapping occurrence of `//` by `/`, scanning left to right. -/
def replaceDblSlash (s : List Char) : List Char :=
  match s with
  | [] => []
  | c :: rest =>
    if c = '/' && rest.head? == some '/' then '/' :: replaceDblSlash rest.tail
    else c :: replaceDblSlash rest
termination_by s.length
decreasing_by
  · cases rest with
    | nil => simp
    | cons d ds =>
      simp only [List.tail_cons, List.length_cons]
      omega
  · simp

/-- Python `"//" in s`. -/
def hasDblSlash : List Char → Bool
  | [] => false
  | c :: rest => (c = '/' && rest.head? == some '/') || hasDblSlash rest

/-- The `while "//" in normalized:` loop of `_normalize_path`, run with a
fuel of the string's length (each replacement pass strictly shortens the
string, so that fuel always suffices; see `collapseSlashes_no_dbl`). -/
def collapseFuel : ℕ → List Char → List Char
  | 0, s => s
  | fuel + 1, s => if hasDblSlash s then collapseFuel fuel (replaceDblSlash s) else s

/-- Collapse every repeated-slash run, as the replacement loop does. -/
def collapseSlashes (s : List Char) : List Char := collapseFuel s.length s

/-- `_normalize_path` (`core/sitemap.py`, lines 110-123): strip, map empty
to `/`, turn backslashes into slashes, force exactly one leading slash, and
collapse repeated slashes. -/
def normalizePath (rawPath : PyStr) : PyStr :=
  let path := pyStrip rawPath
  if path = [] then pystr ("/")
  else
    let n1 := path.map (fun c => if c = '\\' then '/' else c)
    let n2 := if n1.head? = some '/' then n1 else '/' :: lstripSlash n1
    let n3 := collapseSlashes n2
    if n3 = [] then pystr ("/") else n3

/-- `_normalize_patterns`: strip each pattern and keep the non-empty ones. -/
def normalizePatterns (patterns : List PyStr) : List PyStr :=
  (patterns.map pyStrip).filter (fun t => !t.isEmpty)

/-- `_is_excluded`: match the path (leading slashes stripped) against each
pattern (leading slashes stripped); `fnmatchFn` abstracts `fnmatch.fnmatch`. -/
def isExcluded (fnmatchFn : PyStr → PyStr → Bool) (path : PyStr)
    (patterns : List PyStr) : Bool :=
  if patterns.isEmpty then false
  else patterns.any (fun pat => fnmatchFn (lstripSlash path) (lstripSlash pat))

/-- `deduped.get(path)` on the accumulator dict of `_deduplicate_entries`. -/
def lookupKV (acc : List (PyStr × Option ℤ)) (p : PyStr) : Option (Option ℤ) :=
  (acc.find? (fun kv => kv.1 == p)).map (fun kv => kv.2)

/-- The accumulator loop of `_deduplicate_entries`: a dict keyed by
normalized path, inserting new keys at the end and replacing a value in
place only when the stored entry lacks a lastmod the new one carries. -/
def dedupAux : List SitemapEntry → List (PyStr × Option ℤ) → List (PyStr × Option ℤ)
  | [], acc => acc
  | e :: es, acc =>
    let p := normalizePath e.path
    match lookupKV acc p with
    | none => dedupAux es (acc ++ [(p, e.lastmod)])
    | some existing =>
      if existing = none ∧ e.lastmod ≠ none then
        dedupAux es (acc.map (fun kv => if kv.1 == p then (kv.1, e.lastmod) else kv))
      else dedupAux es acc

/-- `_deduplicate_entries` (`core/sitemap.py`, lines 96-107). -/
def dedupEntries (entries : List SitemapEntry) : List SitemapEntry :=
  (dedupAux entries []).map (fun kv => { path := kv.1, lastmod := kv.2 })

/-- `_build_absolute_url`: the root path maps to `base_url + "/"`, every
other path to `base_url + path`. -/
def buildAbsoluteUrl (baseUrl path : PyStr) : PyStr :=
  if path = pystr ("/") then baseUrl ++ pystr ("/") else baseUrl ++ path

/-- `generate_sitemap` (`core/sitemap.py`, lines 22-62), up to XML
serialization: validate the base URL, normalize patterns, deduplicate,
filter exclusions, build `(loc, normalized path, lastmod)` triples and sort
them lexicographically by `loc`.  The returned list is the order of the
emitted `<url>` elements. -/
def generateSitemap (fnmatchFn : PyStr → PyStr → Bool) (entries : List SitemapEntry)
    (siteUrl : PyStr) (excludePatterns : List PyStr) :
    Except PyStr (List (PyStr × PyStr × Option ℤ)) := do
  let baseUrl ← normalizeSiteUrl siteUrl
  let patterns := normalizePatterns excludePatterns
  let deduped := dedupEntries entries
  let filtered := deduped.filter (fun e => !isExcluded fnmatchFn e.path patterns)
  let serialized := filtered.map (fun e =>
    (buildAbsoluteUrl baseUrl (normalizePath e.path), normalizePath e.path, e.lastmod))
  pure (serialized.mergeSort (fun a b => lexLe a.1 b.1))

/-- The last-modified value the deduplication keeps for a normalized path:
the first non-null lastmod among the input entries with that path
(`None` when every such entry lacks one). -/
def firstLastmod (entries : List SitemapEntry) (p : PyStr) : Option ℤ :=
  List.findSome? (fun e => if normalizePath e.path = p then e.lastmod else none) entries

/-! ### Claim-side predicates and concrete instances -/

/-- The drop condition exactly as the specification words it: "df is 0 and
drop_df_min > 0, or df <= drop_df_min, or df equals doc_count, or
df/doc_count >= drop_df_ratio". -/
def specDropCondition (df docCount : ℤ) (s : SearchSettings) : Prop :=
  (df = 0 ∧ 0 < s.dropDfMin) ∨ df ≤ s.dropDfMin ∨ df = docCount ∨
    s.dropDfFrac ≤ (df : ℚ) / (docCount : ℚ)

instance (df docCount : ℤ) (s : SearchSettings) :
    Decidable (specDropCondition df docCount s) := by
  unfold specDropCondition
  infer_instance

/-- Search settings witnessing the `df = 0` disagreement: the defaults
`drop_df_min = 0`, `drop_df_ratio = 0.70`. -/
def searchSettingsDefault : SearchSettings :=
  { maxTermsPerDoc := 300, minTokenLen := 2, dropDfFrac := 7 / 10,
    dropDfMin := 0, weightBody := 1, weightTitle := 8, weightTags := 6,
    normalizeByDocLen := true }

/-- A post fixture carrying the tag `Python`. -/
def postPython : Post :=
  { title := pystr ("First"), date := 2, slug := pystr ("first"),
    tags := [pystr ("Python")], draft := false, summary := pystr (""),
    coverImage := none, coverAlt := none, contentHtml := pystr ("<p>a</p>"),
    sourcePath := pystr ("posts/first.md"), url := pystr ("/posts/first/") }

/-- A post fixture carrying the tag `python!`, which slugifies to the same
value as `Python`. -/
def postPythonBang : Post :=
  { title := pystr ("Second"), date := 1, slug := pystr ("second"),
    tags := [pystr ("python!")], draft := false, summary := pystr (""),
    coverImage := none, coverAlt := none, contentHtml := pystr ("<p>b</p>"),
    sourcePath := pystr ("posts/second.md"), url := pystr ("/posts/second/") }

/-- A page fixture (five fields, as `models.Page` declares). -/
def pageAbout : Page :=
  { title := pystr ("About"), slug := pystr ("about"),
    contentHtml := pystr ("<p>about</p>"),
    sourcePath := pystr ("pages/about.md"), url := pystr ("/about/") }

/-- Feed settings with `include_pages = true` (the shape
`resolve_feed_settings` produces for the configuration of
`test_feeds_generate_rss_and_atom`). -/
def feedSettingsWithPages : FeedSettings :=
  { rssOutput := some (pystr ("rss.xml")), atomOutput := some (pystr ("atom.xml")),
    rssHref := some (pystr ("/rss.xml")), atomHref := some (pystr ("/atom.xml")),
    maxItems := 5, includePosts := true, includePages := true,
    includeDrafts := false, includeTags := [], summaryMode := pystr ("excerpt"),
    summaryMaxChars := 120, siteUrl := pystr ("https://example.com") }

/-- Front matter of a page whose `nav_order` is not parsable as an integer
(the fixture of `test_discover_content_invalid_page_nav_order_falls_back`). -/
def metaBadNavOrder : TomlTable :=
  [("title", .vStr (pystr ("About"))), ("show_in_nav", .vBool true),
   ("nav_order", .vStr (pystr ("not-an-int")))]

/-- A minimal configuration fixture (defaults only). -/
def configDefault : Config :=
  { site := [("title", .vStr (pystr ("My Site"))), ("url", .vStr (pystr ("")))],
    build := [("posts_per_page", .vInt 10), ("include_drafts", .vBool false)],
    author := [],
    paths :=
      { siteRoot := pystr ("."), contentDir := pystr ("content"),
        postsDir := pystr ("content/posts"), pagesDir := pystr ("content/pages"),
        templatesDir := pystr ("templates"), staticDir := pystr ("static"),
        outputDir := pystr ("output") } }

/-! ## Theorems -/

theorem joinl_nil : joinl [] = [] := rfl

theorem joinl_cons (l : PyStr) (ls : List PyStr) : joinl (l :: ls) = l ++ joinl ls := rfl

/-- Splitting into kept-ends lines and concatenating them back is the identity. -/
theorem joinl_splitlinesKE (s : List Char) : joinl (splitlinesKE s) = s := by
  induction s using splitlinesKE.induct with
  | case1 =>
    simp [splitlinesKE, joinl]
  | case2 s hnil i hlt hpair ih =>
    rw [splitlinesKE, if_neg hnil, dif_pos hlt, if_pos hpair, joinl_cons, ih,
      List.take_append_drop]
  | case3 s hnil i hlt hpair ih =>
    rw [splitlinesKE, if_neg hnil, dif_pos hlt, if_neg hpair, joinl_cons, ih,
      List.take_append_drop]
  | case4 s hnil i hge =>
    rw [splitlinesKE, if_neg hnil, dif_neg hge]
    simp [joinl]


/-! ### Lexicographic order facts -/

theorem lexLt_cons (a b : Char) (as bs : List Char) :
    lexLt (a :: as) (b :: bs) =
      if a < b then true else if b < a then false else lexLt as bs := rfl

theorem lexLt_asymm : ∀ a b : List Char, lexLt a b = true → lexLt b a = false
  | [], [] => by intro h; exact absurd h (by decide)
  | [], _ :: _ => by intro _; rfl
  | _ :: _, [] => by intro h; exact absurd h (by simp [lexLt])
  | a :: as, b :: bs => by
    by_cases h1 : a < b
    · intro _
      rw [lexLt_cons, if_neg (lt_asymm h1), if_pos h1]
    · by_cases h2 : b < a
      · intro h
        rw [lexLt_cons, if_neg h1, if_pos h2] at h
        exact absurd h (by simp)
      · intro h
        rw [lexLt_cons, if_neg h1, if_neg h2] at h
        rw [lexLt_cons, if_neg h2, if_neg h1]
        exact lexLt_asymm as bs h

theorem lexLt_eq_of_not : ∀ a b : List Char, lexLt a b = false → lexLt b a = false → a = b
  | [], [] => by intro _ _; rfl
  | [], _ :: _ => by intro h _; exact absurd h (by simp [lexLt])
  | _ :: _, [] => by intro _ h; exact absurd h (by simp [lexLt])
  | a :: as, b :: bs => by
    intro hab hba
    by_cases h1 : a < b
    · rw [lexLt_cons, if_pos h1] at hab
      exact absurd hab (by simp)
    · by_cases h2 : b < a
      · rw [lexLt_cons, if_pos h2] at hba
        exact absurd hba (by simp)
      · rw [lexLt_cons, if_neg h1, if_neg h2] at hab
        rw [lexLt_cons, if_neg h2, if_neg h1] at hba
        have hc : a = b := le_antisymm (not_lt.mp h2) (not_lt.mp h1)
        rw [hc, lexLt_eq_of_not as bs hab hba]

theorem lexLt_trans : ∀ a b c : List Char,
    lexLt a b = true → lexLt b c = true → lexLt a c = true
  | [], b, [] => by
    intro _ h
    have hb : lexLt b [] = false := by cases b <;> rfl
    rw [hb] at h
    exact absurd h (by simp)
  | [], _, _ :: _ => by intro _ _; rfl
  | _ :: _, [], _ => by intro h _; exact absurd h (by simp [lexLt])
  | _ :: _, _ :: _, [] => by intro _ h; exact absurd h (by simp [lexLt])
  | a :: as, b :: bs, c :: cs => by
    intro hab hbc
    rw [lexLt_cons] at hab hbc ⊢
    by_cases h1 : a < b
    · by_cases h2 : b < c
      · rw [if_pos (h1.trans h2)]
      · rw [if_neg h2] at hbc
        by_cases h3 : c < b
        · rw [if_pos h3] at hbc
          exact absurd hbc (by simp)
        · have hcb : b = c := le_antisymm (not_lt.mp h3) (not_lt.mp h2)
          rw [if_pos (hcb ▸ h1)]
    · by_cases h2 : b < a
      · rw [if_neg h1, if_pos h2] at hab
        exact absurd hab (by simp)
      · have hba : a = b := le_antisymm (not_lt.mp h2) (not_lt.mp h1)
        subst hba
        rw [if_neg h1, if_neg h2] at hab
        by_cases h3 : a < c
        · rw [if_pos h3]
        · by_cases h4 : c < a
          · rw [if_neg h3, if_pos h4] at hbc
            exact absurd hbc (by simp)
          · rw [if_neg h3, if_neg h4] at hbc ⊢
            exact lexLt_trans as bs cs hab hbc

theorem lexLe_total (a b : List Char) : lexLe a b || lexLe b a := by
  simp only [lexLe, Bool.or_eq_true, Bool.not_eq_true']
  by_contra h
  push_neg at h
  obtain ⟨h1, h2⟩ := h
  have h1t : lexLt b a = true := by
    cases hx : lexLt b a
    · exact absurd hx h1
    · rfl
  exact h2 (lexLt_asymm b a h1t)

theorem lexLe_trans (a b c : List Char) (h1 : lexLe a b = true) (h2 : lexLe b c = true) :
    lexLe a c = true := by
  simp only [lexLe, Bool.not_eq_true'] at h1 h2 ⊢
  cases hca : lexLt c a
  · rfl
  · exfalso
    cases hbc : lexLt b c
    · have : b = c := lexLt_eq_of_not b c hbc h2
      subst this
      rw [hca] at h1
      exact absurd h1 (by simp)
    · have := lexLt_trans b c a hbc hca
      rw [this] at h1
      exact absurd h1 (by simp)

theorem lexLe_refl (a : List Char) : lexLe a a = true := by
  simp only [lexLe, Bool.not_eq_true']
  cases h : lexLt a a
  · rfl
  · have := lexLt_asymm a a h
    rw [this] at h
    exact absurd h (by simp)

/-! ### Claim C10 — pagination page size is never zero -/

/-- C10: the page size used by `build_site`'s pagination is never zero:
`int(config.build.get("posts_per_page", 10)) or 10` substitutes the
default 10 whenever the converted value is 0, so the
`ceil(len(posts) / posts_per_page)` computation never divides by zero. -/
theorem resolvePostsPerPage_never_zero (build : TomlTable) (r : ℤ)
    (h : resolvePostsPerPage build = .ok r) :
    r ≠ 0 ∧ (pyInt ((lookupT build "posts_per_page").getD (.vInt 10)) = .ok 0 → r = 10) := by
  unfold resolvePostsPerPage at h
  cases hpi : pyInt ((lookupT build "posts_per_page").getD (.vInt 10)) with
  | error e => rw [hpi] at h; exact absurd h (by simp)
  | ok v =>
    rw [hpi] at h
    simp only [Except.ok.injEq] at h
    constructor
    · by_cases hv : v = 0
      · rw [← h, if_pos hv]
        decide
      · rw [← h, if_neg hv]
        exact hv
    · intro h0
      have hv0 : v = 0 := by injection h0
      rw [← h, if_pos hv0]

/-- Witness for `resolvePostsPerPage_never_zero`: with
`posts_per_page = 0` the build falls back to a page size of 10. -/
theorem resolvePostsPerPage_never_zero_witness :
    (10 : ℤ) ≠ 0 ∧
      (pyInt ((lookupT [("posts_per_page", TomlVal.vInt 0)] "posts_per_page").getD (.vInt 10)) = .ok 0 →
        (10 : ℤ) = 10) :=
  resolvePostsPerPage_never_zero [("posts_per_page", TomlVal.vInt 0)] 10 (by rfl)

/-! ### Claim C5 — document-frequency pruning -/

/-- C5, counterexample: at `df = 0` with the default settings
(`drop_df_min = 0`), the specification's disjunction
(`df <= drop_df_min` holds as `0 <= 0`) demands a drop, but
`should_drop_token` keeps the token (its `df <= 0` early return answers
`drop_df_min > 0`, which is false). -/
theorem shouldDropToken_spec_counterexample :
    shouldDropToken 0 3 searchSettingsDefault = false ∧
      specDropCondition 0 3 searchSettingsDefault := by
  constructor
  · rfl
  · right
    left
    decide

/-- C5, amended: for a token actually occurring in the corpus
(`df >= 1`) the drop decision is exactly the disjunction
`df <= drop_df_min ∨ df = doc_count ∨ df/doc_count >= drop_df_ratio`;
for `df = 0` the token is dropped exactly when `drop_df_min > 0`.
Moreover, at the index level, a token appearing in no document never
enters the term index, and a token appearing in every document is
excluded from it. -/
theorem shouldDropToken_amended :
    (∀ (s : SearchSettings) (df n : ℤ), 1 ≤ n → 0 ≤ df →
      (shouldDropToken df n s = true ↔
        (if df = 0 then 0 < s.dropDfMin
         else df ≤ s.dropDfMin ∨ df = n ∨ s.dropDfFrac ≤ (df : ℚ) / (n : ℚ)))) ∧
    (∀ (log sqrt : ℚ → ℚ) (records : List DocumentRecord) (s : SearchSettings) (t : PyStr),
      (∀ r ∈ records, ((r.tokenWeights.map Prod.fst).contains t) = false) →
      t ∉ (buildTermsIndex log sqrt records s).map Prod.fst) ∧
    (∀ (log sqrt : ℚ → ℚ) (records : List DocumentRecord) (s : SearchSettings) (t : PyStr),
      (∀ r ∈ records, ((r.tokenWeights.map Prod.fst).contains t) = true) →
      t ∉ (buildTermsIndex log sqrt records s).map Prod.fst) := by
  refine ⟨?_, ?_, ?_⟩
  · intro s df n hn hdf
    unfold shouldDropToken
    by_cases h0 : df = 0
    · subst h0
      rw [if_pos (by omega), if_pos rfl]
      simp
    · rw [if_neg (by omega), if_neg (by omega), if_neg h0]
      by_cases h1 : df ≤ s.dropDfMin
      · rw [if_pos h1]
        simp [h1]
      · rw [if_neg h1]
        by_cases h2 : df = n
        · rw [if_pos h2]
          simp [h2]
        · rw [if_neg h2]
          simp [h1, h2]
  · intro log sqrt records s t habs hmem
    obtain ⟨pr, hpr, hfst⟩ := List.mem_map.mp hmem
    have htok : t ∈ (termPairs log sqrt records s).map Prod.fst := by
      unfold buildTermsIndex at hpr
      by_cases hrec : records.isEmpty
      · rw [if_pos hrec] at hpr
        exact absurd hpr (List.not_mem_nil pr)
      · rw [if_neg hrec] at hpr
        obtain ⟨tok, htokmem, heq⟩ := List.mem_map.mp hpr
        have : tok ∈ ((termPairs log sqrt records s).map Prod.fst).dedup :=
          (List.mergeSort_perm _ lexLe).mem_iff.mp htokmem
        rw [← heq] at hfst
        simp only at hfst
        rw [← hfst]
        exact List.mem_dedup.mp this
    obtain ⟨pr2, hpr2, hfst2⟩ := List.mem_map.mp htok
    obtain ⟨r, hr, hprscore⟩ := List.mem_flatMap.mp hpr2
    obtain ⟨ts, hts, heq2⟩ := List.mem_map.mp hprscore
    have hsub : ts ∈ survivingScores log sqrt r.tokenWeights
        (fun tk => (dfCount records tk : ℤ)) records.length r.bodyTokenCount s := by
      unfold scoreDocumentTokens at hts
      by_cases hlen : s.maxTermsPerDoc < (survivingScores log sqrt r.tokenWeights
          (fun tk => (dfCount records tk : ℤ)) records.length r.bodyTokenCount s).length
      · rw [if_pos hlen] at hts
        exact (List.mergeSort_perm _ scoredKeyLe).mem_iff.mp
          (List.mem_of_mem_take hts)
      · rw [if_neg hlen] at hts
        exact (List.mergeSort_perm _ scoredKeyLe).mem_iff.mp hts
    obtain ⟨tw, htw, hsome⟩ := List.mem_filterMap.mp hsub
    by_cases hw : tw.2 ≤ 0
    · rw [if_pos hw] at hsome
      exact absurd hsome (by simp)
    · rw [if_neg hw] at hsome
      by_cases hdrop : shouldDropToken (dfCount records tw.1 : ℤ) (records.length : ℤ) s
      · rw [if_pos hdrop] at hsome
        exact absurd hsome (by simp)
      · rw [if_neg hdrop] at hsome
        simp only [Option.some.injEq] at hsome
        have hts1 : ts.1 = tw.1 := by rw [← hsome]
        have htin : tw.1 ∈ r.tokenWeights.map Prod.fst := List.mem_map_of_mem Prod.fst htw
        have httw : t = tw.1 := by
          rw [← hfst2, ← heq2]
          simp only
          exact hts1
        rw [← httw] at htin
        have hfalse := habs r hr
        have htrue : (r.tokenWeights.map Prod.fst).contains t = true := by
          rw [List.contains_eq_any_beq]
          exact List.any_eq_true.mpr ⟨t, htin, by simp⟩
        rw [htrue] at hfalse
        exact absurd hfalse (by simp)
  · intro log sqrt records s t hall hmem
    obtain ⟨pr, hpr, hfst⟩ := List.mem_map.mp hmem
    unfold buildTermsIndex at hpr
    by_cases hrec : records.isEmpty
    · rw [if_pos hrec] at hpr
      exact absurd hpr (List.not_mem_nil pr)
    · rw [if_neg hrec] at hpr
      obtain ⟨tok, htokmem, heq⟩ := List.mem_map.mp hpr
      have htok : tok ∈ (termPairs log sqrt records s).map Prod.fst := by
        have : tok ∈ ((termPairs log sqrt records s).map Prod.fst).dedup :=
          (List.mergeSort_perm _ lexLe).mem_iff.mp htokmem
        exact List.mem_dedup.mp this
      obtain ⟨pr2, hpr2, hfst2⟩ := List.mem_map.mp htok
      obtain ⟨r, hr, hprscore⟩ := List.mem_flatMap.mp hpr2
      obtain ⟨ts, hts, heq2⟩ := List.mem_map.mp hprscore
      have hsub : ts ∈ survivingScores log sqrt r.tokenWeights
          (fun tk => (dfCount records tk : ℤ)) records.length r.bodyTokenCount s := by
        unfold scoreDocumentTokens at hts
        by_cases hlen : s.maxTermsPerDoc < (survivingScores log sqrt r.tokenWeights
            (fun tk => (dfCount records tk : ℤ)) records.length r.bodyTokenCount s).length
        · rw [if_pos hlen] at hts
          exact (List.mergeSort_perm _ scoredKeyLe).mem_iff.mp
            (List.mem_of_mem_take hts)
        · rw [if_neg hlen] at hts
          exact (List.mergeSort_perm _ scoredKeyLe).mem_iff.mp hts
      obtain ⟨tw, htw, hsome⟩ := List.mem_filterMap.mp hsub
      -- the token name carried by the posting is t
      have hts1 : ts.1 = t := by
        rw [← hfst, ← heq]
        simp only
        rw [← hfst2, ← heq2]
      by_cases hw : tw.2 ≤ 0
      · rw [if_pos hw] at hsome
        exact absurd hsome (by simp)
      · rw [if_neg hw] at hsome
        by_cases hdrop : shouldDropToken (dfCount records tw.1 : ℤ) (records.length : ℤ) s
        · rw [if_pos hdrop] at hsome
          exact absurd hsome (by simp)
        · rw [if_neg hdrop] at hsome
          simp only [Option.some.injEq] at hsome
          have htwt : tw.1 = t := by
            have : ts.1 = tw.1 := by rw [← hsome]
            rw [← this, hts1]
          -- df equals the corpus size, so the token must have been dropped
          have hdfall : dfCount records tw.1 = records.length := by
            unfold dfCount
            rw [htwt]
            rw [List.filter_eq_self.mpr (fun r2 hr2 => hall r2 hr2)]
          have hnonempty : records.length ≠ 0 := by
            intro hz
            rw [List.isEmpty_iff, ← List.length_eq_zero] at hrec
            exact hrec hz
          exfalso
          apply hdrop
          unfold shouldDropToken
          rw [hdfall]
          rw [if_neg (by omega), if_neg (by omega)]
          by_cases hmin : (records.length : ℤ) ≤ s.dropDfMin
          · rw [if_pos hmin]
          · rw [if_neg hmin, if_pos rfl]

/-- Witness for `shouldDropToken_amended`: a token with `df = doc_count = 2`
is dropped, and a token present in the only document of a one-document
corpus never reaches the term index. -/
theorem shouldDropToken_amended_witness :
    shouldDropToken 2 2 searchSettingsDefault = true ∧
      pystr ("aa") ∉ (buildTermsIndex id id
        [{ docId := 0, tokenWeights := [(pystr ("aa"), 1)], bodyTokenCount := 1 }]
        searchSettingsDefault).map Prod.fst := by
  constructor
  · exact (shouldDropToken_amended.1 searchSettingsDefault 2 2 (by decide) (by decide)).mpr
      (by decide)
  · refine shouldDropToken_amended.2.2 id id _ searchSettingsDefault (pystr ("aa")) ?_
    intro r hr
    have := List.mem_singleton.mp hr
    subst this
    decide

/-! ### Claim C9 — nav_order fallback during page discovery -/

/-- C9: the `nav_order` conversion itself falls back to the default 1000 on
an unparsable value, but discovery then calls `Page(...)` with keyword
arguments (`date`, `show_in_nav`, `nav_title`, `nav_order`) that
`models.Page` does not declare, so discovering any page — including one
with an unparsable `nav_order` — raises `TypeError` instead of producing a
`Page` with `nav_order = 1000`. -/
theorem discoverPage_badNavOrder_raises :
    navOrderOf metaBadNavOrder = 1000 ∧
      discoverPage (fun _ => .error []) metaBadNavOrder (pystr ("about"))
          (pystr ("pages/about.md")) (pystr ("<p>about</p>")) =
        .error (pystr ("TypeError: Page.__init__() got an unexpected keyword argument ") ++
          pystr ("date")) := by
  constructor
  · rfl
  · rfl

/-! ### Claim C8 — feed entry collection -/

/-- C8: with `include_pages = true` and any page present, `_collect_entries`
reads `page.date`, an attribute `models.Page` does not declare, and raises
`AttributeError` — instead of skipping dateless pages and including dated
ones as the specification describes. -/
theorem collectEntries_page_attrError :
    collectEntries id feedSettingsWithPages [] [pageAbout] =
      .error (pystr ("AttributeError: Page object has no attribute date")) := by
  rfl

/-! ### Claim C1 — build_site never reaches the feed generator -/

/-- C1: no run of `build_site` completes.  After the draft filter, the date
sort, the tag index and the pagination arithmetic (lines 95-108), line 112
reads `config.sitemap`, which `models.Config` does not declare, so every
call raises (`int(...)` on a malformed `posts_per_page` can raise even
earlier).  In particular no completed run ever delegates to
`generate_feeds`, and no code path of `build_site` mentions the feeds
configuration — `rss.xml`/`atom.xml` are never produced. -/
theorem buildSite_never_completes (config : Config) (posts : List Post)
    (pages : List Page) : (buildSite config posts pages).isOk = false := by
  unfold buildSite
  cases h : resolvePostsPerPage config.build with
  | error e => simp [h, Except.isOk, Except.toBool, Bind.bind, Except.bind]
  | ok v => simp [h, Except.isOk, Except.toBool, Bind.bind, Except.bind, configAttrSitemap]

/-! ### Claim C4 — front-matter parsing -/

theorem splitAtFence_eq :
    ∀ (ls : List PyStr) (fm rest : List PyStr),
      splitAtFence ls = some (fm, rest) →
      ∃ cl, pyStrip cl = fenceStr ∧ ls = fm ++ cl :: rest
  | [], fm, rest => by intro h; exact absurd h (by simp [splitAtFence])
  | l :: ls, fm, rest => by
    intro h
    unfold splitAtFence at h
    by_cases hl : pyStrip l = fenceStr
    · rw [if_pos hl] at h
      simp only [Option.some.injEq, Prod.mk.injEq] at h
      obtain ⟨h1, h2⟩ := h
      subst h1
      subst h2
      exact ⟨l, hl, rfl⟩
    · rw [if_neg hl] at h
      cases hrec : splitAtFence ls with
      | none => rw [hrec] at h; exact absurd h (by simp)
      | some p =>
        rw [hrec] at h
        simp only [Option.some.injEq, Prod.mk.injEq] at h
        obtain ⟨h1, h2⟩ := h
        obtain ⟨cl, hcl, hdec⟩ := splitAtFence_eq ls p.1 p.2 (by rw [hrec])
        subst h1
        subst h2
        refine ⟨cl, hcl, ?_⟩
        rw [List.cons_append, ← hdec]

/-- C4: if the first line is not the `+++` fence, or no closing fence
exists, the parser returns empty metadata and the whole text as body
without error.  When a closing fence exists, the text decomposes as
opening fence line, front-matter text, closing fence line, and remainder;
the front-matter text goes through the TOML parser — a parse failure
yields an error whose message contains the source path, a success yields
the remainder as body with at most one blank line directly after the
closing fence stripped. -/
theorem parseFrontMatterAndBody_spec (tomlParse : PyStr → Except PyStr TomlTable)
    (path text : PyStr) :
    ((∀ line0 rest, splitlinesKE text = line0 :: rest →
        pyStrip line0 ≠ fenceStr ∨ splitAtFence rest = none) →
      parseFrontMatterAndBody tomlParse path text = .ok ([], text)) ∧
    (∀ line0 rest fmLines afterLines,
      splitlinesKE text = line0 :: rest → pyStrip line0 = fenceStr →
      splitAtFence rest = some (fmLines, afterLines) →
      (∃ closeLine, pyStrip closeLine = fenceStr ∧
        text = line0 ++ (joinl fmLines ++ (closeLine ++ joinl afterLines))) ∧
      (∀ e, tomlParse (joinl fmLines) = .error e →
        ∃ msg, parseFrontMatterAndBody tomlParse path text = .error msg ∧
          ∃ bef aft, msg = bef ++ (path ++ aft)) ∧
      (∀ meta, tomlParse (joinl fmLines) = .ok meta →
        ∃ body, parseFrontMatterAndBody tomlParse path text = .ok (meta, body) ∧
          (body = joinl afterLines ∨
            ∃ bl bs, afterLines = bl :: bs ∧ pyStrip bl = [] ∧ body = joinl bs))) := by
  have heval : ∀ line0 rest fmLines afterLines,
      splitlinesKE text = line0 :: rest → pyStrip line0 = fenceStr →
      splitAtFence rest = some (fmLines, afterLines) →
      parseFrontMatterAndBody tomlParse path text =
        (match tomlParse (joinl fmLines) with
         | .error e =>
           .error (pystr ("Failed to parse TOML front matter in ") ++ path ++
             pystr (": ") ++ e)
         | .ok meta =>
           .ok (meta, joinl
             (match afterLines with
              | [] => ([] : List PyStr)
              | b :: bs => if pyStrip b = [] then bs else b :: bs))) := by
    intro line0 rest fmLines afterLines hsplit hfen hfence2
    unfold parseFrontMatterAndBody
    split
    next heq =>
      rw [hsplit] at heq
      exact absurd heq (by simp)
    next l0 r0 heq =>
      rw [hsplit] at heq
      injection heq with e1 e2
      subst e1
      subst e2
      rw [if_neg (by simp [hfen])]
      split
      next heq2 =>
        rw [hfence2] at heq2
        exact absurd heq2 (by simp)
      next fm2 af2 heq2 =>
        rw [hfence2] at heq2
        simp only [Option.some.injEq, Prod.mk.injEq] at heq2
        obtain ⟨hA, hB⟩ := heq2
        subst hA
        subst hB
        rfl
  constructor
  · intro hno
    unfold parseFrontMatterAndBody
    split
    next heq =>
      have htext : text = [] := by
        rw [← joinl_splitlinesKE text, heq]
        rfl
      rw [htext]
    next l0 r0 heq =>
      rcases hno l0 r0 heq with hne | hnone
      · rw [if_pos hne]
      · by_cases hfen : pyStrip l0 ≠ fenceStr
        · rw [if_pos hfen]
        · rw [if_neg hfen]
          split
          next => rfl
          next fm2 af2 heq2 =>
            rw [hnone] at heq2
            exact absurd heq2 (by simp)
  · intro line0 rest fmLines afterLines hsplit hfen hfence2
    refine ⟨?_, ?_, ?_⟩
    · obtain ⟨cl, hcl, hls⟩ := splitAtFence_eq rest fmLines afterLines hfence2
      refine ⟨cl, hcl, ?_⟩
      conv_lhs => rw [← joinl_splitlinesKE text, hsplit, hls]
      rw [joinl_cons]
      unfold joinl
      rw [List.flatten_append]
      simp [joinl, List.append_assoc]
    · intro e he
      refine ⟨pystr ("Failed to parse TOML front matter in ") ++ path ++
          pystr (": ") ++ e, ?_, ?_⟩
      · rw [heval line0 rest fmLines afterLines hsplit hfen hfence2, he]
      · refine ⟨pystr ("Failed to parse TOML front matter in "),
          pystr (": ") ++ e, ?_⟩
        simp [List.append_assoc]
    · intro meta hm
      cases hafter : afterLines with
      | nil =>
        refine ⟨joinl [], ?_, ?_⟩
        · rw [heval line0 rest fmLines afterLines hsplit hfen hfence2, hm, hafter]
        · left
          simp [hafter]
      | cons b bs =>
        by_cases hblank : pyStrip b = []
        · refine ⟨joinl bs, ?_, ?_⟩
          · rw [heval line0 rest fmLines afterLines hsplit hfen hfence2, hm, hafter]
            simp [hblank]
          · right
            exact ⟨b, bs, rfl, hblank, rfl⟩
        · refine ⟨joinl (b :: bs), ?_, ?_⟩
          · rw [heval line0 rest fmLines afterLines hsplit hfen hfence2, hm, hafter]
            simp [hblank]
          · exact Or.inl rfl

/-- Witness for `parseFrontMatterAndBody_spec`: a file whose front matter
block is empty and whose TOML parse fails produces an error naming the
source path. -/
theorem parseFrontMatterAndBody_spec_witness :
    ∃ msg, parseFrontMatterAndBody (fun _ => .error (pystr ("bad")))
        (pystr ("post.md")) (pystr ("+++\n+++")) = .error msg ∧
      ∃ bef aft, msg = bef ++ (pystr ("post.md") ++ aft) := by
  have hsplit : splitlinesKE (pystr ("+++\n+++")) = [pystr ("+++\n"), pystr ("+++")] := by
    simp +decide [splitlinesKE, isLineBreak, pystr]
  have h := (parseFrontMatterAndBody_spec (fun _ => .error (pystr ("bad")))
      (pystr ("post.md")) (pystr ("+++\n+++"))).2
    (pystr ("+++\n")) [pystr ("+++")] [] [] hsplit (by decide) (by rfl)
  exact h.2.1 (pystr ("bad")) rfl

/-! ### Claim C3 — pagination -/

theorem le_ceilDiv_mul (n p : ℕ) (hp : 1 ≤ p) : n ≤ ceilDiv n p * p := by
  unfold ceilDiv
  rw [Nat.mul_comm]
  have h1 := Nat.div_add_mod (n + p - 1) p
  have h2 := Nat.mod_lt (n + p - 1) (show 0 < p by omega)
  omega

theorem flatten_slices (p : ℕ) (hp : 1 ≤ p) :
    ∀ (t : ℕ) (l : List Post), l.length ≤ t * p →
      ((List.range' 1 t).map (fun k => (l.drop ((k - 1) * p)).take p)).flatten = l := by
  intro t
  induction t with
  | zero =>
    intro l hl
    have hnil : l = [] := List.eq_nil_of_length_eq_zero (by omega)
    rw [hnil]
    rfl
  | succ t ih =>
    intro l hl
    rw [List.range'_succ, List.map_cons, List.flatten_cons]
    have h1 : (l.drop ((1 - 1) * p)).take p = l.take p := by norm_num
    rw [h1]
    have h2 : (List.range' 2 t).map (fun k => (l.drop ((k - 1) * p)).take p) =
        (List.range' 1 t).map (fun k => ((l.drop p).drop ((k - 1) * p)).take p) := by
      rw [List.range'_eq_map_range 2 t, List.range'_eq_map_range 1 t,
        List.map_map, List.map_map]
      apply List.map_congr_left
      intro j _
      simp only [Function.comp]
      rw [List.drop_drop]
      have e1 : 2 + j - 1 = j + 1 := by omega
      have e2 : 1 + j - 1 = j := by omega
      rw [e1, e2]
      congr 1
      ring
    have hlen : (l.drop p).length ≤ t * p := by
      have hexp : (t + 1) * p = t * p + p := by ring
      rw [hexp] at hl
      simp only [List.length_drop]
      omega
    rw [h2, ih (l.drop p) hlen]
    exact List.take_append_drop p l

/-- C3: for `N` posts and a page size `P >= 1`, the build's pagination uses
`total_pages = max(1, ceil(N / P))` pages numbered `1..total_pages`;
page 1 has no `prev_url`, page 2's `prev_url` is the root `/`, the last
page has no `next_url`, and concatenating the page slices in order gives
back exactly the input post list (every post on exactly one page, no
duplicates or omissions). -/
theorem paginate_spec (posts : List Post) (p : ℕ) (hp : 1 ≤ p) :
    (paginate posts p).map PageSlice.number = List.range' 1 (totalPagesOf posts.length p) ∧
    totalPagesOf posts.length p = max 1 (ceilDiv posts.length p) ∧
    (∀ pg ∈ paginate posts p, pg.number = 1 → pg.prevUrl = none) ∧
    (∀ pg ∈ paginate posts p, pg.number = 2 → pg.prevUrl = some (pystr ("/"))) ∧
    (∀ pg ∈ paginate posts p, pg.number = totalPagesOf posts.length p → pg.nextUrl = none) ∧
    ((paginate posts p).map PageSlice.posts).flatten = posts := by
  refine ⟨?_, rfl, ?_, ?_, ?_, ?_⟩
  · unfold paginate
    rw [List.map_map]
    apply List.map_id''
    intro k
    rfl
  · intro pg hpg h1
    unfold paginate at hpg
    obtain ⟨k, _, rfl⟩ := List.mem_map.mp hpg
    simp only at h1
    subst h1
    simp
  · intro pg hpg h2
    unfold paginate at hpg
    obtain ⟨k, _, rfl⟩ := List.mem_map.mp hpg
    simp only at h2
    subst h2
    simp
  · intro pg hpg hlast
    unfold paginate at hpg
    obtain ⟨k, _, rfl⟩ := List.mem_map.mp hpg
    simp only at hlast
    subst hlast
    simp
  · unfold paginate
    rw [List.map_map]
    have hmap : (PageSlice.posts ∘ fun k =>
        ({ number := k
           url := if k = 1 then pystr ("/") else pystr ("/page/") ++ natRepr k ++ pystr ("/")
           posts := (posts.drop ((k - 1) * p)).take p
           prevUrl :=
             if 1 < k then
               some (if k = 2 then pystr ("/")
                 else pystr ("/page/") ++ natRepr (k - 1) ++ pystr ("/"))
             else none
           nextUrl :=
             if k < totalPagesOf posts.length p then
               some (pystr ("/page/") ++ natRepr (k + 1) ++ pystr ("/"))
             else none } : PageSlice)) =
        fun k => (posts.drop ((k - 1) * p)).take p := rfl
    rw [hmap]
    apply flatten_slices p hp
    have h1 : ceilDiv posts.length p ≤ totalPagesOf posts.length p := by
      unfold totalPagesOf
      omega
    calc posts.length ≤ ceilDiv posts.length p * p := le_ceilDiv_mul posts.length p hp
      _ ≤ totalPagesOf posts.length p * p := Nat.mul_le_mul_right p h1

/-- Witness for `paginate_spec`: two posts with page size 1 paginate into
slices that concatenate back to the original list. -/
theorem paginate_spec_witness :
    ((paginate [postPython, postPythonBang] 1).map PageSlice.posts).flatten =
      [postPython, postPythonBang] :=
  (paginate_spec [postPython, postPythonBang] 1 (by decide)).2.2.2.2.2

/-! ### Claim C2 — colliding tag slugs -/

theorem find?_eq_filter_head? (p : (PyStr × List Post) → Bool) :
    ∀ l : List (PyStr × List Post), l.find? p = (l.filter p).head?
  | [] => rfl
  | a :: l => by
    by_cases h : p a
    · rw [List.find?_cons_of_pos _ h, List.filter_cons_of_pos h]
      rfl
    · rw [List.find?_cons_of_neg _ h, List.filter_cons_of_neg h]
      exact find?_eq_filter_head? p l

/-- C2, amended: the writes of the tag-detail loop for tags sharing a slug
all target the single path `tags/<slug>/index.html`, and the file's final
content is the post list of the LAST colliding tag in the loop's
case-insensitive name order — each render overwrites the previous one; the
post lists are not merged. -/
theorem tagPages_lastWrite (tagIndex : List (PyStr × List Post)) (slug : PyStr) :
    lastWrite (tagPageWrites tagIndex) (tagDetailPath slug) =
      (((tagIndex.mergeSort tagSortLe).filter
        (fun kv => slugifyTag kv.1 == slug)).getLast?).map (fun kv => kv.2) := by
  unfold lastWrite tagPageWrites
  generalize tagIndex.mergeSort tagSortLe = L
  rw [← List.map_reverse, List.find?_map]
  have hpred : ((fun w : PyStr × List Post => w.1 == tagDetailPath slug) ∘
      (fun kv : PyStr × List Post =>
        (pystr ("tags/") ++ slugifyTag kv.1 ++ pystr ("/index.html"), kv.2))) =
      fun kv => slugifyTag kv.1 == slug := by
    funext kv
    simp only [Function.comp_apply]
    by_cases h : slugifyTag kv.1 = slug
    · rw [h]
      unfold tagDetailPath
      simp
    · have hne : ¬(pystr ("tags/") ++ slugifyTag kv.1 ++ pystr ("/index.html") =
          tagDetailPath slug) := by
        unfold tagDetailPath
        intro he
        apply h
        rw [List.append_assoc, List.append_assoc] at he
        exact List.append_cancel_right (List.append_cancel_left he)
      have hLf : (pystr ("tags/") ++ slugifyTag kv.1 ++ pystr ("/index.html") ==
          tagDetailPath slug) = false := beq_eq_false_iff_ne.mpr hne
      have hRf : (slugifyTag kv.1 == slug) = false := beq_eq_false_iff_ne.mpr h
      rw [hLf, hRf]
  rw [hpred, find?_eq_filter_head?, List.filter_reverse,
    ← List.getLast?_eq_head?_reverse, Option.map_map]
  rfl

/-- C2, counterexample: the distinct tags `Python` and `python!` share the
slug `python`; the tag index keeps them separate, both renders target
`tags/python/index.html`, and the final file holds only the posts of
`python!` (rendered last) — not the merged union of both tags' posts. -/
theorem tagPages_collision_counterexample :
    slugifyTag (pystr ("Python")) = slugifyTag (pystr ("python!")) ∧
    pystr ("Python") ≠ pystr ("python!") ∧
    buildTagIndex [postPython, postPythonBang] =
      [(pystr ("Python"), [postPython]), (pystr ("python!"), [postPythonBang])] ∧
    lastWrite (tagPageWrites (buildTagIndex [postPython, postPythonBang]))
        (tagDetailPath (pystr ("python"))) = some [postPythonBang] ∧
    [postPython, postPythonBang].filter
        (fun pt => pt.tags.contains (pystr ("Python")) ||
          pt.tags.contains (pystr ("python!"))) = [postPython, postPythonBang] ∧
    some [postPythonBang] ≠ some [postPython, postPythonBang] := by
  refine ⟨by decide, by decide, by rfl, ?_, by rfl, by decide⟩
  have hsorted : (buildTagIndex [postPython, postPythonBang]).mergeSort tagSortLe =
      buildTagIndex [postPython, postPythonBang] :=
    List.mergeSort_of_sorted (by decide)
  unfold tagPageWrites
  rw [hsorted]
  rfl

/-! ### Claim C6 — per-document token scoring -/

theorem scoredKeyLe_trans (a b c : PyStr × ℚ) (h1 : scoredKeyLe a b = true)
    (h2 : scoredKeyLe b c = true) : scoredKeyLe a c = true := by
  unfold scoredKeyLe at h1 h2 ⊢
  by_cases e1 : a.2 = b.2
  · rw [if_pos e1] at h1
    by_cases e2 : b.2 = c.2
    · rw [if_pos e2] at h2
      rw [if_pos (e1.trans e2)]
      exact lexLe_trans _ _ _ h1 h2
    · rw [if_neg e2] at h2
      have hlt : c.2 < b.2 := of_decide_eq_true h2
      rw [if_neg (by rw [e1]; exact ne_of_gt hlt)]
      exact decide_eq_true (e1 ▸ hlt)
  · rw [if_neg e1] at h1
    have hlt1 : b.2 < a.2 := of_decide_eq_true h1
    by_cases e2 : b.2 = c.2
    · rw [if_neg (by rw [← e2]; exact ne_of_gt hlt1)]
      exact decide_eq_true (e2 ▸ hlt1)
    · rw [if_neg e2] at h2
      have hlt2 : c.2 < b.2 := of_decide_eq_true h2
      have hlt3 : c.2 < a.2 := hlt2.trans hlt1
      rw [if_neg (ne_of_gt hlt3)]
      exact decide_eq_true hlt3

theorem scoredKeyLe_total (a b : PyStr × ℚ) :
    (scoredKeyLe a b || scoredKeyLe b a) = true := by
  unfold scoredKeyLe
  by_cases e : a.2 = b.2
  · rw [if_pos e, if_pos e.symm]
    exact lexLe_total a.1 b.1
  · rw [if_neg e, if_neg (Ne.symm e)]
    rcases lt_or_gt_of_ne e with h | h
    · simp [h]
    · simp [h]

theorem mem_survivingScores (log sqrt : ℚ → ℚ) (tw : List (PyStr × ℚ))
    (dfOf : PyStr → ℤ) (n bc : ℕ) (s : SearchSettings) (pr : PyStr × ℚ)
    (h : pr ∈ survivingScores log sqrt tw dfOf n bc s) :
    ∃ w, (pr.1, w) ∈ tw ∧ 0 < w ∧
      shouldDropToken (dfOf pr.1) (n : ℤ) s = false ∧
      pr.2 = scoreFormula log sqrt w (dfOf pr.1) n bc s := by
  obtain ⟨a, ha, hsome⟩ := List.mem_filterMap.mp h
  by_cases hw : a.2 ≤ 0
  · rw [if_pos hw] at hsome
    exact absurd hsome (by simp)
  · rw [if_neg hw] at hsome
    by_cases hd : shouldDropToken (dfOf a.1) (n : ℤ) s
    · rw [if_pos hd] at hsome
      exact absurd hsome (by simp)
    · rw [if_neg hd] at hsome
      simp only [Option.some.injEq] at hsome
      have hpr : pr = (a.1, scoreFormula log sqrt a.2 (dfOf a.1) n bc s) := hsome.symm
      refine ⟨a.2, ?_, by push_neg at hw; exact hw, ?_, ?_⟩
      · rw [hpr]
        simpa using ha
      · rw [hpr]
        simpa using Bool.eq_false_iff.mpr hd
      · rw [hpr]

/-- C6: every pair kept by `_score_document_tokens` carries the score
`(1 + ln w) * (ln((doc_count+1)/(df+1)) + 1)`, divided by
`sqrt(body_token_count)` when normalization is enabled and the document has
body tokens; at most `max_terms` pairs are kept, they are ordered by
`(-score, token)` (ties broken by token lexical order), and the kept pairs
together with the discarded ones are exactly the surviving scored pairs,
with every kept pair ranking at least as high as every discarded one. -/
theorem scoreDocumentTokens_spec (log sqrt : ℚ → ℚ) (tw : List (PyStr × ℚ))
    (dfOf : PyStr → ℤ) (n maxT bc : ℕ) (s : SearchSettings) :
    (∀ pr ∈ scoreDocumentTokens log sqrt tw dfOf n maxT bc s,
      ∃ w, (pr.1, w) ∈ tw ∧ 0 < w ∧
        shouldDropToken (dfOf pr.1) (n : ℤ) s = false ∧
        pr.2 = scoreFormula log sqrt w (dfOf pr.1) n bc s) ∧
    (scoreDocumentTokens log sqrt tw dfOf n maxT bc s).length ≤ maxT ∧
    List.Pairwise (fun a b => scoredKeyLe a b = true)
      (scoreDocumentTokens log sqrt tw dfOf n maxT bc s) ∧
    ∃ dropped,
      (survivingScores log sqrt tw dfOf n bc s).Perm
        (scoreDocumentTokens log sqrt tw dfOf n maxT bc s ++ dropped) ∧
      ∀ q ∈ scoreDocumentTokens log sqrt tw dfOf n maxT bc s,
        ∀ p2 ∈ dropped, scoredKeyLe q p2 = true := by
  have hperm := List.mergeSort_perm
    (survivingScores log sqrt tw dfOf n bc s) scoredKeyLe
  have hpair : List.Pairwise (fun a b => scoredKeyLe a b = true)
      ((survivingScores log sqrt tw dfOf n bc s).mergeSort scoredKeyLe) :=
    List.sorted_mergeSort scoredKeyLe_trans scoredKeyLe_total _
  have hout : scoreDocumentTokens log sqrt tw dfOf n maxT bc s =
      (if maxT < (survivingScores log sqrt tw dfOf n bc s).length then
        ((survivingScores log sqrt tw dfOf n bc s).mergeSort scoredKeyLe).take maxT
      else (survivingScores log sqrt tw dfOf n bc s).mergeSort scoredKeyLe) := rfl
  refine ⟨?_, ?_, ?_, ?_⟩
  · intro pr hpr
    rw [hout] at hpr
    have hmem : pr ∈ (survivingScores log sqrt tw dfOf n bc s).mergeSort scoredKeyLe := by
      by_cases hc : maxT < (survivingScores log sqrt tw dfOf n bc s).length
      · rw [if_pos hc] at hpr
        exact List.mem_of_mem_take hpr
      · rw [if_neg hc] at hpr
        exact hpr
    exact mem_survivingScores log sqrt tw dfOf n bc s pr (hperm.mem_iff.mp hmem)
  · rw [hout]
    by_cases hc : maxT < (survivingScores log sqrt tw dfOf n bc s).length
    · rw [if_pos hc]
      simp
    · rw [if_neg hc]
      rw [List.length_mergeSort]
      exact Nat.le_of_not_lt hc
  · rw [hout]
    by_cases hc : maxT < (survivingScores log sqrt tw dfOf n bc s).length
    · rw [if_pos hc]
      exact hpair.sublist (List.take_sublist maxT _)
    · rw [if_neg hc]
      exact hpair
  · by_cases hc : maxT < (survivingScores log sqrt tw dfOf n bc s).length
    · refine ⟨((survivingScores log sqrt tw dfOf n bc s).mergeSort scoredKeyLe).drop maxT,
        ?_, ?_⟩
      · rw [hout, if_pos hc, List.take_append_drop]
        exact hperm.symm
      · intro q hq p2 hp2
        rw [hout, if_pos hc] at hq
        have hsplit : List.Pairwise (fun a b => scoredKeyLe a b = true)
            ((((survivingScores log sqrt tw dfOf n bc s).mergeSort scoredKeyLe).take maxT) ++
              (((survivingScores log sqrt tw dfOf n bc s).mergeSort scoredKeyLe).drop maxT)) := by
          rw [List.take_append_drop]
          exact hpair
        exact (List.pairwise_append.mp hsplit).2.2 q hq p2 hp2
    · refine ⟨[], ?_, ?_⟩
      · rw [hout, if_neg hc, List.append_nil]
        exact hperm.symm
      · intro q _ p2 hp2
        exact absurd hp2 (List.not_mem_nil p2)

/-- Witness for `scoreDocumentTokens_spec`: a single token of weight 1 in a
two-document corpus (with `log` and `sqrt` instantiated as the identity)
scores `(1 + 1) * (3/2 + 1) = 5`. -/
theorem scoreDocumentTokens_spec_witness :
    ∃ w, ((pystr ("aa"), (5 : ℚ)).1, w) ∈ [(pystr ("aa"), (1 : ℚ))] ∧ 0 < w ∧
      shouldDropToken ((fun _ => (1 : ℤ)) (pystr ("aa"), (5 : ℚ)).1) ((2 : ℕ) : ℤ)
        searchSettingsDefault = false ∧
      (pystr ("aa"), (5 : ℚ)).2 = scoreFormula id id w
        ((fun _ => (1 : ℤ)) (pystr ("aa"), (5 : ℚ)).1) 2 0 searchSettingsDefault := by
  have hs : survivingScores id id [(pystr ("aa"), 1)] (fun _ => 1) 2 0
      searchSettingsDefault = [(pystr ("aa"), 5)] := by
    unfold survivingScores scoreFormula shouldDropToken searchSettingsDefault
    norm_num [List.filterMap_cons]
  have hout : scoreDocumentTokens id id [(pystr ("aa"), 1)] (fun _ => 1) 2 1 0
      searchSettingsDefault = [(pystr ("aa"), 5)] := by
    unfold scoreDocumentTokens
    simp only [hs]
    rw [List.mergeSort_of_sorted (List.pairwise_singleton _ _)]
    rfl
  have hmem : (pystr ("aa"), (5 : ℚ)) ∈ scoreDocumentTokens id id
      [(pystr ("aa"), 1)] (fun _ => 1) 2 1 0 searchSettingsDefault := by
    rw [hout]
    exact List.mem_singleton_self _
  exact (scoreDocumentTokens_spec id id [(pystr ("aa"), 1)] (fun _ => 1) 2 1 0
    searchSettingsDefault).1 (pystr ("aa"), 5) hmem

/-! ### Claim C7 — sitemap generation -/

theorem replaceDblSlash_length_le : ∀ s : List Char, (replaceDblSlash s).length ≤ s.length := by
  intro s
  induction s using replaceDblSlash.induct with
  | case1 => simp [replaceDblSlash]
  | case2 c rest hcond ih =>
    rw [replaceDblSlash, if_pos hcond]
    cases rest with
    | nil => simp at hcond
    | cons d ds =>
      simp only [List.tail_cons] at ih ⊢
      simp only [List.length_cons]
      omega
  | case3 c rest hcond ih =>
    rw [replaceDblSlash, if_neg hcond]
    simp only [List.length_cons]
    omega

theorem replaceDblSlash_length_lt : ∀ s : List Char, hasDblSlash s = true →
    (replaceDblSlash s).length < s.length := by
  intro s
  induction s using replaceDblSlash.induct with
  | case1 => intro h; exact absurd h (by simp [hasDblSlash])
  | case2 c rest hcond ih =>
    intro _
    rw [replaceDblSlash, if_pos hcond]
    cases rest with
    | nil => simp at hcond
    | cons d ds =>
      have := replaceDblSlash_length_le ds
      simp only [List.tail_cons, List.length_cons]
      omega
  | case3 c rest hcond ih =>
    intro h
    rw [hasDblSlash] at h
    rw [Bool.or_eq_true] at h
    rcases h with h | h
    · exact absurd h (by simpa using hcond)
    · rw [replaceDblSlash, if_neg hcond]
      have := ih h
      simp only [List.length_cons]
      omega

theorem collapseFuel_no_dbl : ∀ (fuel : ℕ) (s : List Char), s.length ≤ fuel →
    hasDblSlash (collapseFuel fuel s) = false := by
  intro fuel
  induction fuel with
  | zero =>
    intro s hs
    have : s = [] := List.eq_nil_of_length_eq_zero (by omega)
    rw [this]
    rfl
  | succ fuel ih =>
    intro s hs
    rw [collapseFuel]
    by_cases h : hasDblSlash s = true
    · rw [if_pos h]
      have hlt := replaceDblSlash_length_lt s h
      exact ih (replaceDblSlash s) (by omega)
    · rw [if_neg h]
      exact Bool.eq_false_iff.mpr h

theorem collapseSlashes_no_dbl (s : List Char) :
    hasDblSlash (collapseSlashes s) = false :=
  collapseFuel_no_dbl s.length s le_rfl

theorem replaceDblSlash_head (s : List Char) (h : s.head? = some '/') :
    (replaceDblSlash s).head? = some '/' := by
  cases s with
  | nil => simp at h
  | cons c rest =>
    simp only [List.head?_cons, Option.some.injEq] at h
    subst h
    rw [replaceDblSlash]
    by_cases hc : (decide ('/' = '/') && rest.head? == some '/') = true
    · rw [if_pos hc]
      rfl
    · rw [if_neg hc]
      rfl

theorem collapseFuel_head : ∀ (fuel : ℕ) (s : List Char), s.head? = some '/' →
    (collapseFuel fuel s).head? = some '/' := by
  intro fuel
  induction fuel with
  | zero => intro s h; exact h
  | succ fuel ih =>
    intro s h
    rw [collapseFuel]
    by_cases hd : hasDblSlash s = true
    · rw [if_pos hd]
      exact ih (replaceDblSlash s) (replaceDblSlash_head s h)
    · rw [if_neg hd]
      exact h

/-- The normalization invariant: every normalized path starts with exactly
one slash (a leading slash, with no `//` anywhere). -/
theorem normalizePath_props (raw : PyStr) :
    (normalizePath raw).head? = some '/' ∧ hasDblSlash (normalizePath raw) = false := by
  unfold normalizePath
  by_cases hempty : pyStrip raw = []
  · rw [if_pos hempty]
    constructor <;> rfl
  · rw [if_neg hempty]
    set n1 := (pyStrip raw).map (fun c => if c = '\\' then '/' else c) with hn1
    set n2 := if n1.head? = some '/' then n1 else '/' :: lstripSlash n1 with hn2
    have h2 : n2.head? = some '/' := by
      rw [hn2]
      by_cases hh : n1.head? = some '/'
      · rw [if_pos hh]
        exact hh
      · rw [if_neg hh]
        rfl
    have h3head : (collapseSlashes n2).head? = some '/' := by
      unfold collapseSlashes
      exact collapseFuel_head n2.length n2 h2
    have h3dbl := collapseSlashes_no_dbl n2
    by_cases h3e : collapseSlashes n2 = []
    · rw [if_pos h3e]
      constructor <;> rfl
    · rw [if_neg h3e]
      exact ⟨h3head, h3dbl⟩

theorem firstLastmod_cons (e : SitemapEntry) (es : List SitemapEntry) (p : PyStr) :
    firstLastmod (e :: es) p =
      match (if normalizePath e.path = p then e.lastmod else none) with
      | some v => some v
      | none => firstLastmod es p := by
  unfold firstLastmod
  rw [List.findSome?_cons]
  split
  next v heq =>
    rw [heq]
  next heq =>
    rw [heq]

theorem lookupKV_append (acc : List (PyStr × Option ℤ)) (x : PyStr × Option ℤ)
    (p : PyStr) :
    lookupKV (acc ++ [x]) p =
      match lookupKV acc p with
      | some v => some v
      | none => if x.1 == p then some x.2 else none := by
  unfold lookupKV
  rw [List.find?_append]
  cases h : acc.find? (fun kv => kv.1 == p) with
  | some kv => simp [h]
  | none =>
    simp only [h, Option.map_none', Option.none_or]
    by_cases hx : (x.1 == p) = true
    · simp [List.find?, hx]
    · simp [List.find?, hx]

theorem lookupKV_update (acc : List (PyStr × Option ℤ)) (pk : PyStr)
    (lm : Option ℤ) (p : PyStr) :
    lookupKV (acc.map (fun kv => if kv.1 == pk then (kv.1, lm) else kv)) p =
      match lookupKV acc p with
      | none => none
      | some old => some (if p == pk then lm else old) := by
  unfold lookupKV
  rw [List.find?_map]
  have hpred : ((fun kv : PyStr × Option ℤ => kv.1 == p) ∘
      (fun kv : PyStr × Option ℤ => if kv.1 == pk then (kv.1, lm) else kv)) =
      fun kv : PyStr × Option ℤ => kv.1 == p := by
    funext kv
    simp only [Function.comp_apply]
    by_cases hk : (kv.1 == pk) = true
    · rw [if_pos hk]
    · rw [if_neg hk]
  rw [hpred]
  cases h : acc.find? (fun kv => kv.1 == p) with
  | none => rfl
  | some kv =>
    have hq := List.find?_some h
    have hkp : kv.1 = p := eq_of_beq (by simpa using hq)
    simp only [Option.map_some']
    by_cases hk : (kv.1 == pk) = true
    · rw [if_pos hk]
      have : (p == pk) = true := by rw [← hkp]; exact hk
      rw [if_pos this]
    · rw [if_neg hk]
      have : ¬(p == pk) = true := by rw [← hkp]; exact hk
      rw [if_neg this]

theorem keys_update (acc : List (PyStr × Option ℤ)) (pk : PyStr) (lm : Option ℤ) :
    (acc.map (fun kv => if kv.1 == pk then (kv.1, lm) else kv)).map Prod.fst =
      acc.map Prod.fst := by
  rw [List.map_map]
  apply List.map_congr_left
  intro kv _
  simp only [Function.comp_apply]
  by_cases hk : (kv.1 == pk) = true
  · rw [if_pos hk]
  · rw [if_neg hk]

theorem lookupKV_none_iff (acc : List (PyStr × Option ℤ)) (p : PyStr) :
    lookupKV acc p = none ↔ p ∉ acc.map Prod.fst := by
  unfold lookupKV
  rw [Option.map_eq_none', List.find?_eq_none]
  constructor
  · intro h hmem
    obtain ⟨kv, hkv, hfst⟩ := List.mem_map.mp hmem
    exact h kv hkv (by rw [hfst]; simp)
  · intro h kv hkv hbeq
    exact h (List.mem_map.mpr ⟨kv, hkv, eq_of_beq hbeq⟩)

theorem mem_lookupKV : ∀ (l : List (PyStr × Option ℤ)),
    (l.map Prod.fst).Nodup → ∀ kv ∈ l, lookupKV l kv.1 = some kv.2
  | [] => by intro _ kv h; exact absurd h (List.not_mem_nil kv)
  | a :: l => by
    intro hnd kv hm
    rw [List.map_cons, List.nodup_cons] at hnd
    rcases List.mem_cons.mp hm with rfl | hm2
    · unfold lookupKV
      simp [List.find?]
    · have hne : ¬(a.1 == kv.1) = true := by
        intro hbeq
        exact hnd.1 (eq_of_beq hbeq ▸ List.mem_map.mpr ⟨kv, hm2, rfl⟩)
      have hih := mem_lookupKV l hnd.2 kv hm2
      unfold lookupKV at hih ⊢
      simp only [List.find?]
      rw [Bool.not_eq_true] at hne
      rw [hne]
      exact hih

theorem dedupAux_cons_insert (e : SitemapEntry) (es : List SitemapEntry)
    (acc : List (PyStr × Option ℤ))
    (h : lookupKV acc (normalizePath e.path) = none) :
    dedupAux (e :: es) acc =
      dedupAux es (acc ++ [(normalizePath e.path, e.lastmod)]) := by
  rw [dedupAux]
  split
  next => rfl
  next ex h2 =>
    rw [h] at h2
    cases h2

theorem dedupAux_cons_replace (e : SitemapEntry) (es : List SitemapEntry)
    (acc : List (PyStr × Option ℤ)) (ex : Option ℤ)
    (h : lookupKV acc (normalizePath e.path) = some ex)
    (hrepl : ex = none ∧ ¬ e.lastmod = none) :
    dedupAux (e :: es) acc = dedupAux es (acc.map (fun kv =>
      if kv.1 == normalizePath e.path then (kv.1, e.lastmod) else kv)) := by
  rw [dedupAux]
  split
  next h2 =>
    rw [h] at h2
    cases h2
  next ex2 h2 =>
    rw [h] at h2
    injection h2 with h3
    subst h3
    rw [if_pos hrepl]

theorem dedupAux_cons_keep (e : SitemapEntry) (es : List SitemapEntry)
    (acc : List (PyStr × Option ℤ)) (ex : Option ℤ)
    (h : lookupKV acc (normalizePath e.path) = some ex)
    (hrepl : ¬(ex = none ∧ ¬ e.lastmod = none)) :
    dedupAux (e :: es) acc = dedupAux es acc := by
  rw [dedupAux]
  split
  next h2 =>
    rw [h] at h2
    cases h2
  next ex2 h2 =>
    rw [h] at h2
    injection h2 with h3
    subst h3
    rw [if_neg hrepl]

theorem dedupAux_lookup : ∀ (es : List SitemapEntry) (acc : List (PyStr × Option ℤ))
    (p : PyStr),
    lookupKV (dedupAux es acc) p =
      match lookupKV acc p with
      | some (some v) => some (some v)
      | some none => some (firstLastmod es p)
      | none =>
        if es.any (fun e => normalizePath e.path == p) then some (firstLastmod es p)
        else none
  | [] => by
    intro acc p
    rw [dedupAux]
    cases h : lookupKV acc p with
    | none => simp
    | some ex => cases ex <;> simp [firstLastmod]
  | e :: es => by
    intro acc p
    cases hacc : lookupKV acc (normalizePath e.path) with
    | none =>
      rw [dedupAux_cons_insert e es acc hacc, dedupAux_lookup es _ p, lookupKV_append]
      cases hp : lookupKV acc p with
      | none =>
        by_cases hpp : (normalizePath e.path == p) = true
        · have hppe : normalizePath e.path = p := eq_of_beq hpp
          cases hlm : e.lastmod with
          | none => simp [hpp, hppe, firstLastmod_cons, hlm]
          | some v => simp [hpp, hppe, firstLastmod_cons, hlm]
        · have hne : ¬ normalizePath e.path = p := fun hx => hpp (beq_iff_eq.mpr hx)
          simp [hpp, firstLastmod_cons, hne]
      | some w =>
        have hne : ¬ normalizePath e.path = p := by
          intro hx
          rw [hx, hp] at hacc
          cases hacc
        cases w with
        | none => simp [firstLastmod_cons, hne]
        | some v => simp
    | some existing =>
      by_cases hrepl : existing = none ∧ ¬ e.lastmod = none
      · obtain ⟨hex, hlmne⟩ := hrepl
        subst hex
        rw [dedupAux_cons_replace e es acc none hacc ⟨rfl, hlmne⟩,
          dedupAux_lookup es _ p, lookupKV_update]
        cases hp : lookupKV acc p with
        | none =>
          have hne : ¬ normalizePath e.path = p := by
            intro hx
            rw [hx, hp] at hacc
            cases hacc
          simp [firstLastmod_cons, hne]
        | some old =>
          by_cases hpk : (p == normalizePath e.path) = true
          · have hpke : p = normalizePath e.path := eq_of_beq hpk
            have hold : old = none := by
              rw [hpke, hacc] at hp
              injection hp with hpold
              exact hpold.symm
            subst hold
            cases hlm : e.lastmod with
            | none => exact absurd hlm hlmne
            | some v => simp [hpk, hlm, firstLastmod_cons, hpke.symm]
          · have hne : ¬ normalizePath e.path = p := fun hx =>
              hpk (beq_iff_eq.mpr hx.symm)
            cases old with
            | none => simp [hpk, firstLastmod_cons, hne]
            | some v => simp [hpk]
      · rw [dedupAux_cons_keep e es acc existing hacc hrepl, dedupAux_lookup es acc p]
        cases hp : lookupKV acc p with
        | none =>
          have hne : ¬ normalizePath e.path = p := by
            intro hx
            rw [hx, hp] at hacc
            cases hacc
          simp [firstLastmod_cons, hne]
        | some w =>
          cases w with
          | some v => rfl
          | none =>
            by_cases hne : normalizePath e.path = p
            · have hex : existing = none := by
                rw [hne, hp] at hacc
                injection hacc with h2
                exact h2.symm
              have hlm : e.lastmod = none := by
                by_contra hc
                exact hrepl ⟨hex, hc⟩
              simp [firstLastmod_cons, hne, hlm]
            · simp [firstLastmod_cons, hne]

theorem dedupAux_keys_nodup : ∀ (es : List SitemapEntry) (acc : List (PyStr × Option ℤ)),
    (acc.map Prod.fst).Nodup → ((dedupAux es acc).map Prod.fst).Nodup
  | [] => by
    intro acc h
    rw [dedupAux]
    exact h
  | e :: es => by
    intro acc h
    cases hacc : lookupKV acc (normalizePath e.path) with
    | none =>
      rw [dedupAux_cons_insert e es acc hacc]
      apply dedupAux_keys_nodup es
      rw [List.map_append]
      refine List.Nodup.append h (by simp) ?hdisj
      have hmem : normalizePath e.path ∉ acc.map Prod.fst :=
        (lookupKV_none_iff acc (normalizePath e.path)).mp hacc
      simpa using hmem
    | some existing =>
      by_cases hrepl : existing = none ∧ ¬ e.lastmod = none
      · obtain ⟨hex, hlm⟩ := hrepl
        subst hex
        rw [dedupAux_cons_replace e es acc none hacc ⟨rfl, hlm⟩]
        apply dedupAux_keys_nodup es
        rw [keys_update]
        exact h
      · rw [dedupAux_cons_keep e es acc existing hacc hrepl]
        exact dedupAux_keys_nodup es acc h

theorem dedupAux_mem_keys (es : List SitemapEntry) (acc : List (PyStr × Option ℤ))
    (p : PyStr) :
    p ∈ (dedupAux es acc).map Prod.fst ↔
      p ∈ acc.map Prod.fst ∨ ∃ e ∈ es, normalizePath e.path = p := by
  have key : lookupKV (dedupAux es acc) p = none ↔
      lookupKV acc p = none ∧
        es.any (fun e => normalizePath e.path == p) = false := by
    rw [dedupAux_lookup es acc p]
    cases h : lookupKV acc p with
    | none =>
      by_cases ha : es.any (fun e => normalizePath e.path == p) = true
      · simp [ha]
      · simp [ha]
    | some w => cases w <;> simp
  have h3 := lookupKV_none_iff (dedupAux es acc) p
  have h4 := lookupKV_none_iff acc p
  constructor
  · intro hm
    by_contra hcon
    push_neg at hcon
    obtain ⟨hc1, hc2⟩ := hcon
    have hnone : lookupKV (dedupAux es acc) p = none := by
      refine key.mpr ⟨h4.mpr hc1, List.any_eq_false.mpr ?hall⟩
      intro x hx hbeq
      exact hc2 x hx (eq_of_beq hbeq)
    exact (h3.mp hnone) hm
  · intro hor
    by_contra hm
    have hno := key.mp (h3.mpr hm)
    cases hor with
    | inl hmem => exact (h4.mp hno.1) hmem
    | inr hex =>
      obtain ⟨x, hx, hxp⟩ := hex
      have := List.any_eq_false.mp hno.2 x hx
      exact this (beq_iff_eq.mpr hxp)

theorem dedupEntries_mem (entries : List SitemapEntry) (d : SitemapEntry)
    (hd : d ∈ dedupEntries entries) :
    (∃ e ∈ entries, d.path = normalizePath e.path) ∧
      d.lastmod = firstLastmod entries d.path := by
  unfold dedupEntries at hd
  obtain ⟨kv, hkv, hdeq⟩ := List.mem_map.mp hd
  have hnd : ((dedupAux entries []).map Prod.fst).Nodup :=
    dedupAux_keys_nodup entries [] (by simp)
  have hlk := mem_lookupKV _ hnd kv hkv
  have hchar := dedupAux_lookup entries [] kv.1
  have hnil : lookupKV ([] : List (PyStr × Option ℤ)) kv.1 = none := rfl
  rw [hlk, hnil] at hchar
  by_cases ha : entries.any (fun e => normalizePath e.path == kv.1) = true
  · simp only [ha, if_true] at hchar
    injection hchar with hval
    obtain ⟨e, he, hbeq⟩ := List.any_eq_true.mp ha
    subst hdeq
    exact ⟨⟨e, he, (eq_of_beq hbeq).symm⟩, hval⟩
  · rw [Bool.not_eq_true] at ha
    rw [ha] at hchar
    simp at hchar

theorem dedupEntries_covers (entries : List SitemapEntry) (e : SitemapEntry)
    (he : e ∈ entries) :
    ∃ d ∈ dedupEntries entries, d.path = normalizePath e.path := by
  have hmem : normalizePath e.path ∈ (dedupAux entries []).map Prod.fst := by
    rw [dedupAux_mem_keys]
    exact Or.inr ⟨e, he, rfl⟩
  obtain ⟨kv, hkv, hfst⟩ := List.mem_map.mp hmem
  exact ⟨⟨kv.1, kv.2⟩, List.mem_map.mpr ⟨kv, hkv, rfl⟩, hfst⟩

/-- C7: `generate_sitemap` normalizes every emitted path to exactly one
leading slash with repeated slash runs collapsed, deduplicates entries by
normalized path — the kept lastmod is the first non-null lastmod among the
entries sharing that path, so a later duplicate replaces an earlier one
only when it supplies a lastmod the earlier one lacked — and orders the
emitted `<url>` elements lexicographically by absolute URL, where the root
path maps to `base_url + "/"` and every other path to `base_url + path`. -/
theorem generateSitemap_spec (fnm : PyStr → PyStr → Bool) (entries : List SitemapEntry)
    (siteUrl base : PyStr) (out : List (PyStr × PyStr × Option ℤ))
    (hbase : normalizeSiteUrl siteUrl = Except.ok base)
    (hout : generateSitemap fnm entries siteUrl [] = Except.ok out) :
    (∀ t ∈ out, t.2.1.head? = some '/' ∧ hasDblSlash t.2.1 = false) ∧
    ((dedupEntries entries).map SitemapEntry.path).Nodup ∧
    (∀ d ∈ dedupEntries entries,
      (∃ e ∈ entries, d.path = normalizePath e.path) ∧
        d.lastmod = firstLastmod entries d.path) ∧
    (∀ e ∈ entries, ∃ d ∈ dedupEntries entries, d.path = normalizePath e.path) ∧
    out.Perm ((dedupEntries entries).map (fun d =>
      (buildAbsoluteUrl base (normalizePath d.path), normalizePath d.path,
        d.lastmod))) ∧
    (∀ t ∈ out,
      (t.2.1 = pystr ("/") → t.1 = base ++ pystr ("/")) ∧
      (¬ t.2.1 = pystr ("/") → t.1 = base ++ t.2.1)) ∧
    List.Pairwise (fun a b : PyStr × PyStr × Option ℤ => lexLe a.1 b.1 = true) out := by
  unfold generateSitemap at hout
  rw [hbase] at hout
  simp only [Except.bind, bind, pure, Except.pure, Except.ok.injEq] at hout
  rw [show (dedupEntries entries).filter
      (fun d => !isExcluded fnm d.path (normalizePatterns [])) = dedupEntries entries
    from List.filter_eq_self.mpr (fun a _ => rfl)] at hout
  subst hout
  refine ⟨?ha, ?hnd, ?hmemd, ?hcov, ?hperm, ?hloc, ?hsort⟩
  case ha =>
    intro t ht
    have hts := (List.mergeSort_perm _ (fun a b : PyStr × PyStr × Option ℤ =>
      lexLe a.1 b.1)).mem_iff.mp ht
    obtain ⟨d, hdmem, hdt⟩ := List.mem_map.mp hts
    subst hdt
    exact normalizePath_props d.path
  case hnd =>
    unfold dedupEntries
    rw [List.map_map]
    rw [show (SitemapEntry.path ∘ (fun kv : PyStr × Option ℤ =>
        ({ path := kv.1, lastmod := kv.2 } : SitemapEntry))) = Prod.fst
      from funext (fun kv => rfl)]
    exact dedupAux_keys_nodup entries [] (by simp)
  case hmemd =>
    intro d hd
    exact dedupEntries_mem entries d hd
  case hcov =>
    intro e he
    exact dedupEntries_covers entries e he
  case hperm =>
    exact List.mergeSort_perm _ _
  case hloc =>
    intro t ht
    have hts := (List.mergeSort_perm _ (fun a b : PyStr × PyStr × Option ℤ =>
      lexLe a.1 b.1)).mem_iff.mp ht
    obtain ⟨d, hdmem, hdt⟩ := List.mem_map.mp hts
    subst hdt
    constructor
    · intro hroot
      have hroot2 : normalizePath d.path = pystr ("/") := hroot
      show buildAbsoluteUrl base (normalizePath d.path) = base ++ pystr ("/")
      unfold buildAbsoluteUrl
      rw [if_pos hroot2]
    · intro hnroot
      have hnroot2 : ¬ normalizePath d.path = pystr ("/") := hnroot
      show buildAbsoluteUrl base (normalizePath d.path) = base ++ normalizePath d.path
      unfold buildAbsoluteUrl
      rw [if_neg hnroot2]
  case hsort =>
    exact List.sorted_mergeSort
      (fun a b c h1 h2 => lexLe_trans a.1 b.1 c.1 h1 h2)
      (fun a b => lexLe_total a.1 b.1) _

/-- Witness for C7: two entries whose paths both normalize to `/a`, the
first without a lastmod and the second with one; the sitemap emits one
sorted `<url>` element for `https://x/a` carrying the later lastmod. -/
theorem generateSitemap_spec_witness :
    normalizeSiteUrl (pystr ("https://x")) = Except.ok (pystr ("https://x")) ∧
    generateSitemap (fun _ _ => false)
      [{ path := pystr ("a"), lastmod := none },
       { path := pystr ("/a"), lastmod := (some 5 : Option ℤ) }]
      (pystr ("https://x")) [] =
      Except.ok [(pystr ("https://x/a"), pystr ("/a"), (some 5 : Option ℤ))] ∧
    List.Pairwise (fun a b : PyStr × PyStr × Option ℤ => lexLe a.1 b.1 = true)
      [(pystr ("https://x/a"), pystr ("/a"), (some 5 : Option ℤ))] := by
  have h1 : normalizeSiteUrl (pystr ("https://x")) = Except.ok (pystr ("https://x")) := by
    rfl
  have h2 : generateSitemap (fun _ _ => false)
      [{ path := pystr ("a"), lastmod := none },
       { path := pystr ("/a"), lastmod := (some 5 : Option ℤ) }]
      (pystr ("https://x")) [] =
      Except.ok [(pystr ("https://x/a"), pystr ("/a"), (some 5 : Option ℤ))] := by
    unfold generateSitemap
    rw [h1]
    simp only [Except.bind, bind, pure, Except.pure, Except.ok.injEq]
    have hsingle : ∀ (l : List (PyStr × PyStr × Option ℤ)),
        l = [(pystr ("https://x/a"), pystr ("/a"), (some 5 : Option ℤ))] →
        l.mergeSort (fun a b => lexLe a.1 b.1) =
          [(pystr ("https://x/a"), pystr ("/a"), (some 5 : Option ℤ))] := by
      intro l hl
      subst hl
      exact List.mergeSort_of_sorted (List.pairwise_singleton _ _)
    exact hsingle _ (by decide)
  exact ⟨h1, h2,
    (generateSitemap_spec (fun _ _ => false) _ _ _ _ h1 h2).2.2.2.2.2.2⟩
